import Mathlib

/-!
# Push database benchmark client: tuple codec, remote-call wrappers, connection retry, harness

A shallow embedding of `push_db_util.go`, `push_config.go` and `test_db_server.go`.

* Go `string` is `String`, a Go `error` is represented by its text (`err.Error()`),
  a nil error by `none`.
* Go `int`, `int64`, `ResultCode` and `Millitime` values are `Int`; the codec only moves
  them around, so no wrap-around is involved there.  The `int32` fields of `Progress`
  wrap explicitly (`wrap32`).
* A Go slice is `Option (List α)`: `none` is the nil slice.
* Everything the program obtains from outside (random numbers, the clock, the answers of
  the database connection) is read from an explicit environment.
-/

namespace PushDb

/-! ## Basic types (push_db_util.go) -/

/-- A Go `error` value, represented by its message text. -/
abbrev Error := String

/-- Source: `type ResultCode int`. -/
abbrev ResultCode := Int

def RES_OK : ResultCode := 0
def RES_ERR_UNKNOWN_DEV_ID : ResultCode := -1
def RES_ERR_UNKNOWN_SUB_ID : ResultCode := -2
def RES_ERR_MISMATCHING_SUB_ID_DEV_ID : ResultCode := -3
def RES_ERR_DATABASE : ResultCode := -100

def HEX_LETTERS_DIGITS : String := "abcdef0123456789"
def PUSH_TECH_GCM : String := "g"
def PUSH_TECH_FCM : String := "f"
def AUTH_STRING_LEN : Int := 16

/-- Source: `type Millitime int64`. -/
abbrev Millitime := Int

structure DevEnt where
  dev_id : String
  auth : String
  push_token : String
  push_tech : String
  ping_ts : Millitime
  change_ts : Millitime
  change_count : Int
deriving DecidableEq, Repr

structure SubEnt where
  sub_id : String
  dev_id : String
  ping_ts : Millitime
  change_ts : Millitime
deriving DecidableEq, Repr

structure ResultEnt where
  code : ResultCode
  s : String
deriving DecidableEq, Repr

/-! ## The msgpack primitives used by the codec -/

/-- Modelled from the spec: the msgpack library (`gopkg.in/vmihailenco/msgpack.v2`) is not
under src/.  The wire is modelled as the sequence of msgpack objects written to it: an array
header carrying its length, a length-prefixed string, a signed integer, nil, or any other
object.  The byte layout of each object is the library's business and is not modelled. -/
inductive Item where
  | nil
  | arrayLen (n : Int)
  | str (s : String)
  | int (v : Int)
  | other
deriving DecidableEq, Repr

/-- Modelled from the spec: `*msgpack.Encoder` is not under src/; it is the list of objects
written so far. -/
abbrev Encoder := List Item

/-- Modelled from the spec: `*msgpack.Decoder` is not under src/; it is the list of objects
still to be read. -/
abbrev Decoder := List Item

/-- Modelled from the spec: `Encoder.EncodeSliceLen` is not under src/; it writes an array
header of the given length. -/
def EncodeSliceLen (e : Encoder) (l : Int) : Except Error Encoder :=
  .ok (e ++ [Item.arrayLen l])

/-- Modelled from the spec: `Encoder.EncodeString` is not under src/; it writes one
length-prefixed string. -/
def EncodeString (e : Encoder) (v : String) : Except Error Encoder :=
  .ok (e ++ [Item.str v])

/-- Modelled from the spec: `Encoder.EncodeInt64` is not under src/; it writes one signed
integer. -/
def EncodeInt64 (e : Encoder) (v : Int) : Except Error Encoder :=
  .ok (e ++ [Item.int v])

/-- Modelled from the spec: `Encoder.EncodeInt` is not under src/; it writes one signed
integer. -/
def EncodeInt (e : Encoder) (v : Int) : Except Error Encoder :=
  EncodeInt64 e v

/-- Modelled from the spec: `Decoder.DecodeSliceLen` is not under src/; it reads an array
header and returns its length (-1 for nil), and fails on any other object or at the end of
the input. -/
def DecodeSliceLen : Decoder → Except Error (Int × Decoder)
  | Item.arrayLen n :: d => .ok (n, d)
  | Item.nil :: d => .ok (-1, d)
  | _ :: _ => .error "msgpack: invalid code decoding array length"
  | [] => .error "EOF"

/-- Modelled from the spec: `Decoder.DecodeString` is not under src/; it reads one string
(the empty string for nil), and fails on any other object or at the end of the input. -/
def DecodeString : Decoder → Except Error (String × Decoder)
  | Item.str s :: d => .ok (s, d)
  | Item.nil :: d => .ok ("", d)
  | _ :: _ => .error "msgpack: invalid code decoding bytes length"
  | [] => .error "EOF"

/-- Modelled from the spec: `Decoder.DecodeInt64` is not under src/; it reads one integer
(0 for nil), and fails on any other object or at the end of the input. -/
def DecodeInt64 : Decoder → Except Error (Int × Decoder)
  | Item.int v :: d => .ok (v, d)
  | Item.nil :: d => .ok (0, d)
  | _ :: _ => .error "msgpack: invalid code decoding int64"
  | [] => .error "EOF"

/-- Modelled from the spec: `Decoder.DecodeInt` is not under src/; it reads one integer. -/
def DecodeInt (d : Decoder) : Except Error (Int × Decoder) :=
  DecodeInt64 d

/-! ## Tuple codec (push_db_util.go) -/

def encodeMilliTime (e : Encoder) (t : Millitime) : Except Error Encoder :=
  EncodeInt64 e t

def decodeMilliTime (d : Decoder) : Except Error (Millitime × Decoder) :=
  match DecodeInt64 d with
  | .error err => .error err
  | .ok (i, d) => .ok (i, d)

def encodeDevEnt (e : Encoder) (m : DevEnt) : Except Error Encoder :=
  match EncodeSliceLen e 7 with
  | .error err => .error err
  | .ok e =>
  match EncodeString e m.dev_id with
  | .error err => .error err
  | .ok e =>
  match EncodeString e m.auth with
  | .error err => .error err
  | .ok e =>
  match EncodeString e m.push_token with
  | .error err => .error err
  | .ok e =>
  match EncodeString e m.push_tech with
  | .error err => .error err
  | .ok e =>
  match encodeMilliTime e m.ping_ts with
  | .error err => .error err
  | .ok e =>
  match encodeMilliTime e m.change_ts with
  | .error err => .error err
  | .ok e =>
  match EncodeInt e m.change_count with
  | .error err => .error err
  | .ok e => .ok e

/-- The decoder fills the record `m` it is given, one field after the other; the record is
returned together with the rest of the input. -/
def decodeDevEnt (d : Decoder) (m : DevEnt) : Except Error (DevEnt × Decoder) :=
  match DecodeSliceLen d with
  | .error err => .error err
  | .ok (l, d) =>
  if l ≠ 7 then
    .error ("decodeDevEnt array len doesn't match: " ++ toString l)
  else
  match DecodeString d with
  | .error err => .error err
  | .ok (v, d) =>
  let m := { m with dev_id := v }
  match DecodeString d with
  | .error err => .error err
  | .ok (v, d) =>
  let m := { m with auth := v }
  match DecodeString d with
  | .error err => .error err
  | .ok (v, d) =>
  let m := { m with push_token := v }
  match DecodeString d with
  | .error err => .error err
  | .ok (v, d) =>
  let m := { m with push_tech := v }
  match decodeMilliTime d with
  | .error err => .error err
  | .ok (v, d) =>
  let m := { m with ping_ts := v }
  match decodeMilliTime d with
  | .error err => .error err
  | .ok (v, d) =>
  let m := { m with change_ts := v }
  match DecodeInt d with
  | .error err => .error err
  | .ok (v, d) =>
  let m := { m with change_count := v }
  .ok (m, d)

def encodeSubEnt (e : Encoder) (m : SubEnt) : Except Error Encoder :=
  match EncodeSliceLen e 4 with
  | .error err => .error err
  | .ok e =>
  match EncodeString e m.sub_id with
  | .error err => .error err
  | .ok e =>
  match EncodeString e m.dev_id with
  | .error err => .error err
  | .ok e =>
  match encodeMilliTime e m.ping_ts with
  | .error err => .error err
  | .ok e =>
  match encodeMilliTime e m.change_ts with
  | .error err => .error err
  | .ok e => .ok e

def decodeSubEnt (d : Decoder) (m : SubEnt) : Except Error (SubEnt × Decoder) :=
  match DecodeSliceLen d with
  | .error err => .error err
  | .ok (l, d) =>
  if l ≠ 4 then
    .error ("decodeSubEnt array len doesn't match: " ++ toString l)
  else
  match DecodeString d with
  | .error err => .error err
  | .ok (v, d) =>
  let m := { m with sub_id := v }
  match DecodeString d with
  | .error err => .error err
  | .ok (v, d) =>
  let m := { m with dev_id := v }
  match decodeMilliTime d with
  | .error err => .error err
  | .ok (v, d) =>
  let m := { m with ping_ts := v }
  match decodeMilliTime d with
  | .error err => .error err
  | .ok (v, d) =>
  let m := { m with change_ts := v }
  .ok (m, d)

def encodeResultEnt (e : Encoder) (m : ResultEnt) : Except Error Encoder :=
  match EncodeSliceLen e 2 with
  | .error err => .error err
  | .ok e =>
  match EncodeInt e m.code with
  | .error err => .error err
  | .ok e =>
  match EncodeString e m.s with
  | .error err => .error err
  | .ok e => .ok e

def decodeResultEnt (d : Decoder) (m : ResultEnt) : Except Error (ResultEnt × Decoder) :=
  match DecodeSliceLen d with
  | .error err => .error err
  | .ok (l, d) =>
  if l < 1 ∨ l > 2 then
    .error ("decodeResultEnt array len doesn't match: " ++ toString l)
  else
  match DecodeInt d with
  | .error err => .error err
  | .ok (code, d) =>
  let m := { m with code := code }
  if l ≥ 2 then
    match DecodeString d with
    | .error err => .error err
    | .ok (v, d) => .ok ({ m with s := v }, d)
  else
    .ok ({ m with s := "" }, d)

/-! ## Remote procedure model (push_db_util.go) -/

/-- One element of the argument tuple of a remote call (`[]interface{}{...}`). -/
inductive Arg where
  | str (s : String)
  | time (t : Millitime)
deriving DecidableEq, Repr

/-- What a typed call on the connection hands back: the error it returns (`none` for nil)
and the slice it decoded into `res` (`none` for the nil slice). -/
structure CallResult (α : Type) where
  err : Option Error
  res : Option (List α)

/-- Go `len` of a slice: the nil slice has length 0. -/
def len {α : Type} : Option (List α) → Nat
  | none => 0
  | some l => l.length

/-- Source: `tarantool.IterEq`, the iterator passed to `SelectTyped`. -/
def IterEq : Nat := 0

/-- Modelled from the spec: `*tarantool.Connection` (library go-tarantool) is not under
src/.  The connection is the opaque remote service: its schema, and for each typed request
the decoded answer.  The state `σ` is whatever the answers depend on, threaded through the
requests of one caller. -/
structure Connection (σ : Type) where
  Spaces : List (String × List String)
  SelectTyped : σ → String → String → Nat → Nat → Nat → List Arg → CallResult DevEnt × σ
  CallTypedDevEnt : σ → String → List Arg → CallResult DevEnt × σ
  CallTypedResultEnt : σ → String → List Arg → CallResult ResultEnt × σ

structure PushDbModel (σ : Type) where
  dbconn : Connection σ
  space_devs : String × List String
  index_devs_primary : Option String

/-- The lookup of the space "devs" yields nil when the schema lacks it, and reading its
indexes then dereferences a nil pointer: `none`. -/
def NewPushDbModel {σ : Type} (dbconn : Connection σ) : Option (PushDbModel σ) :=
  match dbconn.Spaces.find? (fun sp => sp.1 == "devs") with
  | none => none
  | some sp =>
    some { dbconn := dbconn, space_devs := sp,
           index_devs_primary := sp.2.find? (fun ix => ix == "primary") }

def getDevEnt {σ : Type} (model : PushDbModel σ) (w : σ) (dev_id : String) :
    (Option DevEnt × Option Error) × σ :=
  let (r, w) := model.dbconn.SelectTyped w "devs" "primary" 0 1 IterEq [Arg.str dev_id]
  match r.err with
  | some err => ((none, some ("Error calling device select: " ++ err)), w)
  | none =>
    match r.res with
    | none => ((none, some "Error calling device result set"), w)
    | some [] => ((none, none), w)
    | some (x :: _) => ((some x, none), w)

/-- The test `res == nil || len(res) != 1` fails exactly for a one-element slice, whose
element is then `res[0]`. -/
def doCreateDev {σ : Type} (model : PushDbModel σ) (w : σ) (dev_id auth push_token
    push_tech : String) (now : Millitime) : (Option DevEnt × ResultCode × Option Error) × σ :=
  let fname := "push_CreateDev"
  let (r, w) := model.dbconn.CallTypedDevEnt w fname
    [Arg.str dev_id, Arg.str auth, Arg.str push_token, Arg.str push_tech, Arg.time now]
  match r.err with
  | some err => ((none, RES_ERR_DATABASE, some ("Error calling " ++ fname ++ ": " ++ err)), w)
  | none =>
    match r.res with
    | some [x] => ((some x, RES_OK, none), w)
    | _ => ((none, RES_ERR_DATABASE, some ("Error calling " ++ fname ++ ": result set")), w)

/-- As in `doCreateDev`, the one-element slice is the case in which
`res == nil || len(res) != 1` fails; its element is `res[0]`. -/
def doCreateSub {σ : Type} (model : PushDbModel σ) (w : σ) (dev_id sub_id : String)
    (now : Millitime) : (ResultCode × Option Error) × σ :=
  let fname := "push_CreateSub"
  let (r, w) := model.dbconn.CallTypedResultEnt w fname
    [Arg.str dev_id, Arg.str sub_id, Arg.time now]
  match r.err with
  | some err => ((RES_ERR_DATABASE, some ("Error calling " ++ fname ++ ": " ++ err)), w)
  | none =>
    match r.res with
    | some [x] => ((x.code, none), w)
    | _ => ((RES_ERR_DATABASE, some ("Error calling " ++ fname ++ ": result set")), w)

/-- The procedure name is `push_PingSub`, replaced by `push_ChangeSub` when `change` is
set; the rest is as in `doCreateSub`. -/
def doPingChangeSub {σ : Type} (model : PushDbModel σ) (w : σ) (dev_id sub_id : String)
    (change : Bool) (set_ping_change_ts : Millitime) : (ResultCode × Option Error) × σ :=
  let fname := if change then "push_ChangeSub" else "push_PingSub"
  let (r, w) := model.dbconn.CallTypedResultEnt w fname
    [Arg.str dev_id, Arg.str sub_id, Arg.time set_ping_change_ts]
  match r.err with
  | some err => ((RES_ERR_DATABASE, some ("Error calling " ++ fname ++ ": " ++ err)), w)
  | none =>
    match r.res with
    | some [x] => ((x.code, none), w)
    | _ => ((RES_ERR_DATABASE, some ("Error calling " ++ fname ++ ": result set")), w)

/-! ## Connection manager (push_config.go) -/

def CONNECT_RETRY_COUNT : Nat := 10

/-- Source: `time.Millisecond`, in nanoseconds (the unit of `time.Duration`). -/
def Millisecond : Int := 1000000

structure PushDbConfig where
  Timeout : Int
  Reconnect : Int
  MaxReconnects : Nat
  User : String
  Pass : String
deriving DecidableEq, Repr

structure PushServerConfig where
  DbConnect : String
deriving DecidableEq, Repr

/-- Source: `tarantool.Opts`, the fields the program sets. -/
structure Opts where
  Timeout : Int
  Reconnect : Int
  MaxReconnects : Nat
  User : String
  Pass : String
deriving DecidableEq, Repr

/-- Modelled from the spec: the error classes of `tarantool.Connect` (library go-tarantool)
are not under src/: a `tarantool.ClientError` with its code, or any other error. -/
inductive ConnectError where
  | ClientError (Code : Nat) (Msg : String)
  | other (msg : String)
deriving DecidableEq, Repr

/-- Modelled from the spec: the constant `tarantool.ErrConnectionNotReady` is not under
src/; it is the code of the transient "connection not ready" client error. -/
def ErrConnectionNotReady : Nat := 0x4000

/-- The type assertion and code test of the retry loop: `ok && terr.Code == ErrConnectionNotReady`. -/
def isNotReady : ConnectError → Bool
  | .ClientError code _ => code == ErrConnectionNotReady
  | .other _ => false

/-- What `Connect` does that can be observed from outside: the connection attempts and the
sleeps, in order.  Console output is not recorded. -/
inductive ConnectEvent where
  | attempt (addr : String) (opts : Opts)
  | sleep (d : Int)
deriving DecidableEq, Repr

/-- The result of `Connect`: the returned pair and the events on the way. -/
structure ConnectRun (κ : Type) where
  client : Option κ
  err : Option ConnectError
  trace : List ConnectEvent

/-- The retry loop of `Connect` with `n` iterations left; `dial i` is what the `i`-th call
of `tarantool.Connect` (counted from 0) returns. -/
def connectLoop {κ : Type} (dial : Nat → String → Opts → Option κ × Option ConnectError)
    (addr : String) (opts : Opts) :
    Nat → Nat → Int → Option ConnectError → List ConnectEvent → ConnectRun κ
  | 0, _, _, lastErr, trace => { client := none, err := lastErr, trace := trace }
  | n + 1, i, lastDelay, _, trace =>
    let (client, err) := dial i addr opts
    let trace := trace ++ [ConnectEvent.attempt addr opts]
    match err with
    | none => { client := client, err := none, trace := trace }
    | some e =>
      if !isNotReady e then
        { client := client, err := some e, trace := trace }
      else
        connectLoop dial addr opts n (i + 1) (lastDelay * 2) (some e)
          (trace ++ [ConnectEvent.sleep lastDelay])

def Connect {κ : Type} (dial : Nat → String → Opts → Option κ × Option ConnectError)
    (db : PushDbConfig) (server : PushServerConfig) : ConnectRun κ :=
  let addr := server.DbConnect
  let opts : Opts := { Timeout := db.Timeout, Reconnect := db.Reconnect,
                       MaxReconnects := db.MaxReconnects, User := "", Pass := "" }
  let opts : Opts :=
    if db.User.length > 0 ∧ db.Pass.length > 0 then
      { opts with User := db.User, Pass := db.Pass }
    else opts
  connectLoop dial addr opts CONNECT_RETRY_COUNT 0 (250 * Millisecond) none []

/-! ## Progress tracking (test_db_server.go) -/

/-- Conversion to `int32`: the value modulo 2^32, in the range from -2^31 to 2^31 - 1. -/
def wrap32 (i : Int) : Int := (i + 2 ^ 31) % 2 ^ 32 - 2 ^ 31

structure Flags where
  conc : Int
  total : Int
  keylen : Int
  silent : Bool
deriving DecidableEq, Repr

/-- The flag test of `main`: `usage()` is called, and the process exits, when
`flags.conc < 1 || flags.total < 1 || flags.keylen < 10`. -/
def flagsAccepted (flags : Flags) : Bool :=
  !(decide (flags.conc < 1) || decide (flags.total < 1) || decide (flags.keylen < 10))

/-- The fields `total`, `count` and `last_count` are `int32`; `last_since` is the clock
reading (nanoseconds) of the last sample. -/
structure Progress where
  total : Int
  count : Int
  last_since : Int
  last_count : Int
deriving DecidableEq, Repr

def NewProgress (total : Int) : Progress :=
  { total := wrap32 total, count := 0, last_since := 0, last_count := 0 }

/-- One line of throughput output: the count reached, the requests since the last sample
and the nanoseconds since the last sample (their quotient, the printed rate, is a floating
point number and is not computed here). -/
structure Sample where
  new_count : Int
  requests : Int
  elapsed : Int
deriving DecidableEq, Repr

/-- `Progress.increment`, with `now` the reading of the clock.  An integer division by zero
is a run-time panic (`.error`). -/
def Progress.increment (p : Progress) (now : Int) : Except String (Progress × Option Sample) :=
  let new_count := wrap32 (p.count + 1)
  let p := { p with count := new_count }
  if new_count = 1 then
    .ok ({ p with last_since := now, last_count := 0 }, none)
  else if p.total.tdiv 10 = 0 then
    .error "runtime error: integer divide by zero"
  else if new_count.tmod (p.total.tdiv 10) = 0 then
    .ok ({ p with last_since := now, last_count := new_count },
         some { new_count := new_count, requests := wrap32 (new_count - p.last_count),
                elapsed := now - p.last_since })
  else
    .ok (p, none)

/-- The state after `increment` was called once for each clock reading of the list, one
call after the other, with the samples emitted on the way. -/
def incrementAll : Progress → List Int → Except String (Progress × List (Option Sample))
  | p, [] => .ok (p, [])
  | p, now :: rest =>
    match p.increment now with
    | .error e => .error e
    | .ok (p, s) =>
      match incrementAll p rest with
      | .error e => .error e
      | .ok (p, ss) => .ok (p, s :: ss)

/-! ## Entity generator (push_db_util.go) -/

/-- The sources of values a worker reads from outside: `rand` is the next value of the
random source and `UnixNano` the clock, each threaded through the worker's state `σ`. -/
structure Runtime (σ : Type) where
  rand : σ → Nat × σ
  UnixNano : σ → Int × σ

/-- Source: `rand.Intn(n)`, a value below `n` from the random source. -/
def Intn {σ : Type} (rt : Runtime σ) (w : σ) (n : Nat) : Nat × σ :=
  let (r, w) := rt.rand w
  (r % n, w)

/-- The loop filling `n` bytes with letters of `HEX_LETTERS_DIGITS`. -/
def genLetters {σ : Type} (rt : Runtime σ) : Nat → σ → List Char × σ
  | 0, w => ([], w)
  | n + 1, w =>
    let l := HEX_LETTERS_DIGITS.length
    let (r, w) := Intn rt w l
    let (b, w) := genLetters rt n w
    (HEX_LETTERS_DIGITS.data.getD r 'a' :: b, w)

/-- Making a byte slice of negative length is a run-time panic (`none`). -/
def genRandomString {σ : Type} (rt : Runtime σ) (w : σ) (keylen : Int) : Option (String × σ) :=
  if keylen < 0 then none
  else
    let (b, w) := genLetters rt keylen.toNat w
    some (String.mk b, w)

/-- The 40 letters drawn are stored at the offsets 0, 40, 80 and 120. -/
def genPushToken {σ : Type} (rt : Runtime σ) (w : σ) : String × σ :=
  let (b, w) := genLetters rt 40 w
  (String.mk (b ++ b ++ b ++ b), w)

def milliTime {σ : Type} (rt : Runtime σ) (w : σ) : Millitime × σ :=
  let (t, w) := rt.UnixNano w
  (t.tdiv Millisecond, w)

/-! ## Benchmark harness (test_db_server.go) -/

/-- The ways a run ends before completion: `log.Fatal` (exit of the process) and a
run-time panic. -/
inductive Stop where
  | fatal (msg : String)
  | panic (msg : String)
deriving DecidableEq, Repr

/-- The shared lists `LIST_DEVS` and `LIST_SUBS` (`none` is nil). -/
structure Lists where
  LIST_DEVS : Option (List String)
  LIST_SUBS : Option (List String)
deriving DecidableEq, Repr

/-- What a worker does to the state it shares with the other workers, each an atomic step:
a call of `p.increment()` (the counter is incremented atomically) with the clock reading it
obtains, the critical section of `runFuncSubs` under `LIST_MUTEX`, and the end of the
process. -/
inductive Action where
  | increment (now : Int)
  | publish (list_devs list_subs : List String) (numreq : Int)
  | stop (s : Stop)
deriving DecidableEq, Repr

/-- `log.Fatalf` with `err.Error()` as argument: with a nil `err` the call of `Error`
dereferences nil. -/
def fatalf (text : String) (err : Option Error) : Stop :=
  match err with
  | some e => Stop.fatal (text ++ e)
  | none => Stop.panic "runtime error: invalid memory address or nil pointer dereference"

/-- The body of the first loop of `runFuncSubs` up to the call of `p.increment()`: the
generated `dev_id` and `sub_id`, or the way the process ends. -/
def subsCreate {σ : Type} (model : PushDbModel σ) (rt : Runtime σ) (keylen : Int) (w : σ) :
    Except Stop ((String × String) × σ) :=
  match genRandomString rt w keylen with
  | none => .error (Stop.panic "makeslice: len out of range")
  | some (sub_id, w) =>
  match genRandomString rt w keylen with
  | none => .error (Stop.panic "makeslice: len out of range")
  | some (dev_id, w) =>
  match genRandomString rt w AUTH_STRING_LEN with
  | none => .error (Stop.panic "makeslice: len out of range")
  | some (auth, w) =>
  let (push_token, w) := genPushToken rt w
  let (now, w) := milliTime rt w
  let ((t_dev, code, err), w) := doCreateDev model w dev_id auth push_token PUSH_TECH_GCM now
  if t_dev.isNone ∨ code ≠ RES_OK ∨ err.isSome then
    .error (fatalf "Error calling function: " err)
  else
  let ((code, err), w) := doCreateSub model w dev_id sub_id now
  if code ≠ RES_OK ∨ err.isSome then
    .error (fatalf "Error calling function: " err)
  else
    .ok ((dev_id, sub_id), w)

/-- The first loop of `runFuncSubs`, `n` iterations left: the actions of the worker in
order, and the local lists and state at the end unless the process ended. -/
def subsLoop1 {σ : Type} (model : PushDbModel σ) (rt : Runtime σ) (keylen : Int) :
    Nat → σ → List String → List String →
    List Action × Option (List String × List String × σ)
  | 0, w, list_devs, list_subs => ([], some (list_devs, list_subs, w))
  | n + 1, w, list_devs, list_subs =>
    match subsCreate model rt keylen w with
    | .error s => ([Action.stop s], none)
    | .ok ((dev_id, sub_id), w) =>
      let (now, w) := rt.UnixNano w
      let (acts, r) := subsLoop1 model rt keylen n w (list_devs ++ [dev_id])
        (list_subs ++ [sub_id])
      (Action.increment now :: acts, r)

/-- One more subscription for the device `dev_id`, as the second loop of `runFuncSubs`
creates two of: the state after the call, or the way the process ends. -/
def subsMore {σ : Type} (model : PushDbModel σ) (rt : Runtime σ) (keylen : Int) (w : σ)
    (dev_id : String) : Except Stop σ :=
  match genRandomString rt w keylen with
  | none => .error (Stop.panic "makeslice: len out of range")
  | some (sub_id, w) =>
  let (now, w) := milliTime rt w
  let ((code, err), w) := doCreateSub model w dev_id sub_id now
  if code ≠ RES_OK ∨ err.isSome then
    .error (fatalf ("Error calling function: " ++ toString code ++ ", ") err)
  else
    .ok w

/-- The second loop of `runFuncSubs` from index `i`, `n` iterations left. -/
def subsLoop2 {σ : Type} (model : PushDbModel σ) (rt : Runtime σ) (keylen : Int)
    (list_devs : List String) : Nat → Nat → σ → List Action × Option σ
  | 0, _, w => ([], some w)
  | n + 1, i, w =>
    match list_devs[i]? with
    | none => ([Action.stop (Stop.panic "runtime error: index out of range")], none)
    | some dev_id =>
    match subsMore model rt keylen w dev_id with
    | .error s => ([Action.stop s], none)
    | .ok w =>
    let (now1, w) := rt.UnixNano w
    match subsMore model rt keylen w dev_id with
    | .error s => ([Action.increment now1, Action.stop s], none)
    | .ok w =>
    let (now2, w) := rt.UnixNano w
    let (acts, r) := subsLoop2 model rt keylen list_devs n (i + 1) w
    (Action.increment now1 :: Action.increment now2 :: acts, r)

/-- A worker: from the connection, the sources of outside values, the shared lists as they
are when the run starts, `keylen`, `numreq` and its own state, the actions it performs on
the shared state, in order. -/
abbrev WorkerFunc (σ : Type) :=
  Connection σ → Runtime σ → Lists → Int → Int → σ → List Action

def runFuncSubs {σ : Type} : WorkerFunc σ := fun client rt _ keylen numreq w =>
  if numreq < 0 then [Action.stop (Stop.panic "makeslice: cap out of range")]
  else
  match NewPushDbModel client with
  | none =>
    [Action.stop (Stop.panic "runtime error: invalid memory address or nil pointer dereference")]
  | some model =>
  match subsLoop1 model rt keylen numreq.toNat w [] [] with
  | (acts1, none) => acts1
  | (acts1, some (list_devs, list_subs, w)) =>
  match subsLoop2 model rt keylen list_devs numreq.toNat 0 w with
  | (acts2, none) => acts1 ++ acts2
  | (acts2, some _) => acts1 ++ acts2 ++ [Action.publish list_devs list_subs numreq]

/-- The loop of `runFuncPing` (`change = false`) and of `runFuncChange` (`change = true`)
from index `i`, `n` iterations left. -/
def pingLoop {σ : Type} (model : PushDbModel σ) (rt : Runtime σ) (change : Bool)
    (list_devs list_subs : Option (List String)) : Nat → Nat → σ → List Action
  | 0, _, _ => []
  | n + 1, i, w =>
    match (list_subs.getD [])[i]? with
    | none => [Action.stop (Stop.panic "runtime error: index out of range")]
    | some sub_id =>
    match (list_devs.getD [])[i]? with
    | none => [Action.stop (Stop.panic "runtime error: index out of range")]
    | some dev_id =>
    let (ts, w) := milliTime rt w
    let ((code, err), w) := doPingChangeSub model w dev_id sub_id change ts
    if code ≠ RES_OK ∨ err.isSome then
      [Action.stop (fatalf ("Error calling function: " ++ toString code ++ ", ") err)]
    else
      let (now, w) := rt.UnixNano w
      Action.increment now :: pingLoop model rt change list_devs list_subs n (i + 1) w

def runFuncPing {σ : Type} : WorkerFunc σ := fun client rt lists _ numreq w =>
  match NewPushDbModel client with
  | none =>
    [Action.stop (Stop.panic "runtime error: invalid memory address or nil pointer dereference")]
  | some model => pingLoop model rt false lists.LIST_DEVS lists.LIST_SUBS numreq.toNat 0 w

def runFuncChange {σ : Type} : WorkerFunc σ := fun client rt lists _ numreq w =>
  match NewPushDbModel client with
  | none =>
    [Action.stop (Stop.panic "runtime error: invalid memory address or nil pointer dereference")]
  | some model => pingLoop model rt true lists.LIST_DEVS lists.LIST_SUBS numreq.toNat 0 w

/-- The state shared by the workers of one run. -/
structure Global where
  lists : Lists
  progress : Progress
  samples : List Sample
deriving DecidableEq, Repr

/-- The critical section of `runFuncSubs`: nil lists are made empty, then the local lists
are appended. -/
def publish (lists : Lists) (list_devs list_subs : List String) : Lists :=
  { LIST_DEVS := some (lists.LIST_DEVS.getD [] ++ list_devs),
    LIST_SUBS := some (lists.LIST_SUBS.getD [] ++ list_subs) }

def applyAction (g : Global) : Action → Except Stop Global
  | Action.increment now =>
    match g.progress.increment now with
    | .error e => .error (Stop.panic e)
    | .ok (p, s) => .ok { g with progress := p, samples := g.samples ++ s.toList }
  | Action.publish list_devs list_subs _ =>
    .ok { g with lists := publish g.lists list_devs list_subs }
  | Action.stop s => .error s

/-- Worker `k` performs its next action, if it has one left. -/
def stepWorker (k : Nat) (g : Global) (pending : List (List Action)) :
    Except Stop (Global × List (List Action)) :=
  match pending[k]? with
  | some (a :: rest) =>
    match applyAction g a with
    | .error s => .error s
    | .ok g => .ok (g, pending.set k rest)
  | _ => .ok (g, pending)

/-- The workers take their steps in the order the schedule names them. -/
def runSchedule : List Nat → Global → List (List Action) →
    Except Stop (Global × List (List Action))
  | [], g, pending => .ok (g, pending)
  | k :: ks, g, pending =>
    match stepWorker k g pending with
    | .error s => .error s
    | .ok (g, pending) => runSchedule ks g pending

/-- The actions of a list performed one after the other. -/
def drain : List Action → Global → Except Stop Global
  | [], g => .ok g
  | a :: rest, g =>
    match applyAction g a with
    | .error s => .error s
    | .ok g => drain rest g

/-- `runHarness`: the workers start from the states `envs 0`, `envs 1`, ...; their atomic
steps on the shared state are interleaved as the schedule `sched` says, and what is left
when the schedule ends is performed worker after worker (`wg.Wait()` returns once every
worker is done).  Every interleaving of the workers is the run of some schedule. -/
def runHarness {σ : Type} (flags : Flags) (client : Connection σ) (rt : Runtime σ)
    (worker : WorkerFunc σ) (requireLists : Bool) (envs : Nat → σ) (sched : List Nat)
    (lists : Lists) : Except Stop Global :=
  if requireLists ∧ lists.LIST_SUBS = none then
    .error (Stop.fatal "Please run subs first")
  else if flags.conc < 0 then
    .error (Stop.panic "sync: negative WaitGroup counter")
  else
    let progress := NewProgress flags.total
    let numreq := flags.total.tdiv flags.conc
    let pending := (List.range flags.conc.toNat).map
      (fun i => worker client rt lists flags.keylen numreq (envs i))
    match runSchedule sched { lists := lists, progress := progress, samples := [] } pending with
    | .error s => .error s
    | .ok (g, pending) => drain pending.flatten g

/-! ## Predicates and measures used in the statements -/

/-- The text `t` occurs in the text `s`. -/
def Contains (s t : String) : Prop := t.data <:+: s.data

instance (s t : String) : Decidable (Contains s t) := by
  unfold Contains
  exact inferInstance

/-- The outcome mapping of a wrapper returning a result code: `out` is what the wrapper
returns when the typed call answered `r`.  The pair (`RES_ERR_DATABASE`, an error) is
returned exactly when the call reported an error or the result set does not have exactly
one element; a single element without error gives its code and no error. -/
def CodeOutcome (r : CallResult ResultEnt) (out : ResultCode × Option Error) : Prop :=
  ((∃ e, out = (RES_ERR_DATABASE, some e)) ↔ (r.err ≠ none ∨ len r.res ≠ 1)) ∧
  (∀ x, r.err = none → r.res = some [x] → out = (x.code, none))

/-- The outcome mapping of `doCreateDev`, in the same way. -/
def DevOutcome (r : CallResult DevEnt) (out : Option DevEnt × ResultCode × Option Error) :
    Prop :=
  ((∃ e, out = (none, RES_ERR_DATABASE, some e)) ↔ (r.err ≠ none ∨ len r.res ≠ 1)) ∧
  (∀ x, r.err = none → r.res = some [x] → out = (some x, RES_OK, none))

/-- The error text `out` synthesized around a typed call names the procedure `fname` and
embeds the text of the error `err` the call reported, when it reported one. -/
def NamesProcedure (fname : String) (err out : Option Error) : Prop :=
  ∀ t, out = some t → Contains t fname ∧ ∀ e, err = some e → Contains t e

/-- The `i`-th call of `tarantool.Connect` fails with the "connection not ready" client
error, whatever its arguments. -/
def NotReadyAt {κ : Type} (dial : Nat → String → Opts → Option κ × Option ConnectError)
    (i : Nat) : Prop :=
  ∀ a o, ∃ c e, dial i a o = (c, some e) ∧ isNotReady e = true

/-- The sleep accumulated in a trace before its `n`-th connection attempt (counted from 1);
`none` when the trace has fewer attempts. -/
def sleptBeforeFrom (acc : Int) : List ConnectEvent → Nat → Option Int
  | [], _ => none
  | ConnectEvent.sleep d :: t, n => sleptBeforeFrom (acc + d) t n
  | ConnectEvent.attempt _ _ :: _, 0 => none
  | ConnectEvent.attempt _ _ :: _, 1 => some acc
  | ConnectEvent.attempt _ _ :: t, n + 2 => sleptBeforeFrom acc t (n + 1)

def sleptBefore (trace : List ConnectEvent) (n : Nat) : Option Int :=
  sleptBeforeFrom 0 trace n

/-- The number of connection attempts in a trace. -/
def attempts : List ConnectEvent → Nat
  | [] => 0
  | ConnectEvent.attempt _ _ :: t => attempts t + 1
  | ConnectEvent.sleep _ :: t => attempts t

/-- The total time slept in a trace. -/
def totalSleep : List ConnectEvent → Int
  | [] => 0
  | ConnectEvent.attempt _ _ :: t => totalSleep t
  | ConnectEvent.sleep d :: t => d + totalSleep t

/-- The durations of the sleeps of a trace, in order. -/
def sleeps : List ConnectEvent → List Int
  | [] => []
  | ConnectEvent.attempt _ _ :: t => sleeps t
  | ConnectEvent.sleep d :: t => d :: sleeps t

/-- The events of `k` failed attempts, each followed by its sleep, the first sleep being
`d` and each later one twice the one before. -/
def backoff (addr : String) (opts : Opts) : Int → Nat → List ConnectEvent
  | _, 0 => []
  | d, k + 1 =>
    ConnectEvent.attempt addr opts :: ConnectEvent.sleep d :: backoff addr opts (d * 2) k

/-- Every remote call succeeds: the schema of the connection holds the space "devs", every
typed call for a device answers without error with exactly one device, and every typed call
for a result answers without error with exactly one result of code `RES_OK`. -/
def AllCallsSucceed {σ : Type} (client : Connection σ) : Prop :=
  (∃ sp, client.Spaces.find? (fun sp => sp.1 == "devs") = some sp) ∧
  (∀ w f a, ∃ x, (client.CallTypedDevEnt w f a).1 = { err := none, res := some [x] }) ∧
  (∀ w f a, ∃ s, (client.CallTypedResultEnt w f a).1
    = { err := none, res := some [{ code := RES_OK, s := s }] })

/-- The number of calls of `increment` an action stands for. -/
def incOf : Action → Nat
  | Action.increment _ => 1
  | _ => 0

/-- The number of device identifiers an action appends to `LIST_DEVS`. -/
def devsOf : Action → Nat
  | Action.publish list_devs _ _ => list_devs.length
  | _ => 0

/-- The number of subscription identifiers an action appends to `LIST_SUBS`. -/
def subsOf : Action → Nat
  | Action.publish _ list_subs _ => list_subs.length
  | _ => 0

def isStop : Action → Bool
  | Action.stop _ => true
  | _ => false

/-- The shared state is in order: the divisor of `increment` is not zero and the counter is
an `int32` value. -/
def Sound (g : Global) : Prop :=
  g.progress.total.tdiv 10 ≠ 0 ∧ wrap32 g.progress.count = g.progress.count

/-- The state `g'` is the state `g` after actions that stand for `i` calls of `increment`
and append `d` devices and `s` subscriptions. -/
def Advanced (g g' : Global) (i d s : Nat) : Prop :=
  g'.progress.total = g.progress.total ∧
  g'.progress.count = wrap32 (g.progress.count + i) ∧
  len g'.lists.LIST_DEVS = len g.lists.LIST_DEVS + d ∧
  len g'.lists.LIST_SUBS = len g.lists.LIST_SUBS + s

/-! ## Sample environments -/

/-- A connection on which every lookup comes back with a nil result set. -/
def nilSelectConn : Connection Unit :=
  { Spaces := [("devs", ["primary"])],
    SelectTyped := fun w _ _ _ _ _ _ => ({ err := none, res := none }, w),
    CallTypedDevEnt := fun w _ _ => ({ err := none, res := none }, w),
    CallTypedResultEnt := fun w _ _ => ({ err := none, res := none }, w) }

def nilSelectModel : PushDbModel Unit :=
  { dbconn := nilSelectConn, space_devs := ("devs", ["primary"]),
    index_devs_primary := some "primary" }

/-- A server that is never ready. -/
def dialNotReady : Nat → String → Opts → Option Unit × Option ConnectError :=
  fun _ _ _ => (none, some (ConnectError.ClientError ErrConnectionNotReady "not ready"))

/-- A server that refuses every connection. -/
def dialRefused : Nat → String → Opts → Option Unit × Option ConnectError :=
  fun _ _ _ => (none, some (ConnectError.other "connection refused"))

/-- The default database section of `NewPushConfig`. -/
def sampleDb : PushDbConfig :=
  { Timeout := 5000 * Millisecond, Reconnect := 1000 * Millisecond, MaxReconnects := 3,
    User := "", Pass := "" }

/-- The default server section of `NewPushConfig`. -/
def sampleServer : PushServerConfig := { DbConnect := "127.0.0.1:60501" }

/-- A connection on which every remote call succeeds; its state counts the calls. -/
def okConn : Connection Nat :=
  { Spaces := [("devs", ["primary"])],
    SelectTyped := fun w _ _ _ _ _ _ => ({ err := none, res := some [] }, w + 1),
    CallTypedDevEnt := fun w _ _ =>
      ({ err := none, res := some [⟨"d", "a", "p", "g", 0, 0, 0⟩] }, w + 1),
    CallTypedResultEnt := fun w _ _ =>
      ({ err := none, res := some [{ code := RES_OK, s := "" }] }, w + 1) }

/-- A random source and a clock, both driven by a counter. -/
def okRt : Runtime Nat :=
  { rand := fun w => (w * 7 + 3, w + 1), UnixNano := fun w => (w * 1000000, w + 1) }

/-- The flags `-c 2 -n 10 -l 10`. -/
def sampleFlags : Flags := { conc := 2, total := 10, keylen := 10, silent := false }

/-! ## Lemmas -/

theorem doCreateSub_outcome {σ : Type} (model : PushDbModel σ) (w : σ) (dev_id sub_id : String)
    (now : Millitime) :
    CodeOutcome (model.dbconn.CallTypedResultEnt w "push_CreateSub"
        [Arg.str dev_id, Arg.str sub_id, Arg.time now]).1
      (doCreateSub model w dev_id sub_id now).1 := by
  rcases hq : model.dbconn.CallTypedResultEnt w "push_CreateSub"
        [Arg.str dev_id, Arg.str sub_id, Arg.time now] with ⟨⟨err, res⟩, w'⟩
  rcases err with _ | e
  · rcases res with _ | _ | ⟨x, _ | ⟨y, l⟩⟩ <;> simp [doCreateSub, CodeOutcome, hq, len]
  · simp [doCreateSub, CodeOutcome, hq]

theorem doPingChangeSub_outcome {σ : Type} (model : PushDbModel σ) (w : σ)
    (dev_id sub_id : String) (change : Bool) (ts : Millitime) :
    CodeOutcome (model.dbconn.CallTypedResultEnt w
        (if change then "push_ChangeSub" else "push_PingSub")
        [Arg.str dev_id, Arg.str sub_id, Arg.time ts]).1
      (doPingChangeSub model w dev_id sub_id change ts).1 := by
  rcases hq : model.dbconn.CallTypedResultEnt w
        (if change then "push_ChangeSub" else "push_PingSub")
        [Arg.str dev_id, Arg.str sub_id, Arg.time ts] with ⟨⟨err, res⟩, w'⟩
  rcases err with _ | e
  · rcases res with _ | _ | ⟨x, _ | ⟨y, l⟩⟩ <;> simp [doPingChangeSub, CodeOutcome, hq, len]
  · simp [doPingChangeSub, CodeOutcome, hq]

theorem doCreateDev_outcome {σ : Type} (model : PushDbModel σ) (w : σ)
    (dev_id auth push_token push_tech : String) (now : Millitime) :
    DevOutcome (model.dbconn.CallTypedDevEnt w "push_CreateDev"
        [Arg.str dev_id, Arg.str auth, Arg.str push_token, Arg.str push_tech,
          Arg.time now]).1
      (doCreateDev model w dev_id auth push_token push_tech now).1 := by
  rcases hq : model.dbconn.CallTypedDevEnt w "push_CreateDev"
        [Arg.str dev_id, Arg.str auth, Arg.str push_token, Arg.str push_tech,
          Arg.time now] with ⟨⟨err, res⟩, w'⟩
  rcases err with _ | e
  · rcases res with _ | _ | ⟨x, _ | ⟨y, l⟩⟩ <;> simp [doCreateDev, DevOutcome, hq, len]
  · simp [doCreateDev, DevOutcome, hq]

theorem contains_calling_name (fname tail : String) :
    Contains ("Error calling " ++ fname ++ tail) fname :=
  ⟨"Error calling ".data, tail.data, by simp [String.data_append]⟩

theorem contains_suffix (head e : String) : Contains (head ++ e) e :=
  ⟨head.data, [], by simp [String.data_append]⟩

theorem namesProcedure_of (fname : String) (err : Option Error) (res : Bool) (out : Option Error)
    (h : out = match err with
      | some e => some ("Error calling " ++ fname ++ ": " ++ e)
      | none => if res then none else some ("Error calling " ++ fname ++ ": result set")) :
    NamesProcedure fname err out := by
  intro t ht
  subst h
  cases err with
  | some e =>
    simp at ht
    subst ht
    refine ⟨?_, fun e' he' => ?_⟩
    · have := contains_calling_name fname (": " ++ e)
      simpa [String.append_assoc] using this
    · simp at he'
      subst he'
      exact contains_suffix _ _
  | none =>
    cases res with
    | true => simp at ht
    | false =>
      simp at ht
      subst ht
      refine ⟨?_, fun e' he' => by simp at he'⟩
      have := contains_calling_name fname ": result set"
      simpa [String.append_assoc] using this

theorem doCreateSub_names {σ : Type} (model : PushDbModel σ) (w : σ) (dev_id sub_id : String)
    (now : Millitime) :
    NamesProcedure "push_CreateSub"
      (model.dbconn.CallTypedResultEnt w "push_CreateSub"
        [Arg.str dev_id, Arg.str sub_id, Arg.time now]).1.err
      (doCreateSub model w dev_id sub_id now).1.2 := by
  rcases hq : model.dbconn.CallTypedResultEnt w "push_CreateSub"
        [Arg.str dev_id, Arg.str sub_id, Arg.time now] with ⟨⟨err, res⟩, w'⟩
  rcases err with _ | e
  · rcases res with _ | _ | ⟨x, _ | ⟨y, l⟩⟩
    · exact namesProcedure_of _ none false _ (by simp [doCreateSub, hq])
    · exact namesProcedure_of _ none false _ (by simp [doCreateSub, hq])
    · exact namesProcedure_of _ none true _ (by simp [doCreateSub, hq])
    · exact namesProcedure_of _ none false _ (by simp [doCreateSub, hq])
  · exact namesProcedure_of _ (some e) true _ (by simp [doCreateSub, hq])

theorem doPingChangeSub_names {σ : Type} (model : PushDbModel σ) (w : σ)
    (dev_id sub_id : String) (change : Bool) (ts : Millitime) :
    NamesProcedure (if change then "push_ChangeSub" else "push_PingSub")
      (model.dbconn.CallTypedResultEnt w (if change then "push_ChangeSub" else "push_PingSub")
        [Arg.str dev_id, Arg.str sub_id, Arg.time ts]).1.err
      (doPingChangeSub model w dev_id sub_id change ts).1.2 := by
  rcases hq : model.dbconn.CallTypedResultEnt w
        (if change then "push_ChangeSub" else "push_PingSub")
        [Arg.str dev_id, Arg.str sub_id, Arg.time ts] with ⟨⟨err, res⟩, w'⟩
  rcases err with _ | e
  · rcases res with _ | _ | ⟨x, _ | ⟨y, l⟩⟩
    · exact namesProcedure_of _ none false _ (by simp [doPingChangeSub, hq])
    · exact namesProcedure_of _ none false _ (by simp [doPingChangeSub, hq])
    · exact namesProcedure_of _ none true _ (by simp [doPingChangeSub, hq])
    · exact namesProcedure_of _ none false _ (by simp [doPingChangeSub, hq])
  · exact namesProcedure_of _ (some e) true _ (by simp [doPingChangeSub, hq])

theorem doCreateDev_names {σ : Type} (model : PushDbModel σ) (w : σ)
    (dev_id auth push_token push_tech : String) (now : Millitime) :
    NamesProcedure "push_CreateDev"
      (model.dbconn.CallTypedDevEnt w "push_CreateDev"
        [Arg.str dev_id, Arg.str auth, Arg.str push_token, Arg.str push_tech,
          Arg.time now]).1.err
      (doCreateDev model w dev_id auth push_token push_tech now).1.2.2 := by
  rcases hq : model.dbconn.CallTypedDevEnt w "push_CreateDev"
        [Arg.str dev_id, Arg.str auth, Arg.str push_token, Arg.str push_tech,
          Arg.time now] with ⟨⟨err, res⟩, w'⟩
  rcases err with _ | e
  · rcases res with _ | _ | ⟨x, _ | ⟨y, l⟩⟩
    · exact namesProcedure_of _ none false _ (by simp [doCreateDev, hq])
    · exact namesProcedure_of _ none false _ (by simp [doCreateDev, hq])
    · exact namesProcedure_of _ none true _ (by simp [doCreateDev, hq])
    · exact namesProcedure_of _ none false _ (by simp [doCreateDev, hq])
  · exact namesProcedure_of _ (some e) true _ (by simp [doCreateDev, hq])

theorem getDevEnt_error_text {σ : Type} (model : PushDbModel σ) (w : σ) (dev_id : String)
    (t : Error) (ht : (getDevEnt model w dev_id).1.2 = some t) :
    (∀ e, (model.dbconn.SelectTyped w "devs" "primary" 0 1 IterEq [Arg.str dev_id]).1.err
        = some e → t = "Error calling device select: " ++ e ∧ Contains t e) ∧
    ((model.dbconn.SelectTyped w "devs" "primary" 0 1 IterEq [Arg.str dev_id]).1.err = none →
      t = "Error calling device result set") := by
  rcases hq : model.dbconn.SelectTyped w "devs" "primary" 0 1 IterEq [Arg.str dev_id]
    with ⟨⟨err, res⟩, w'⟩
  rcases err with _ | e
  · rcases res with _ | _ | ⟨x, l⟩ <;> simp [getDevEnt, hq] at ht ⊢
    exact ht.symm
  · simp [getDevEnt, hq] at ht ⊢
    subst ht
    exact ⟨rfl, contains_suffix _ _⟩

theorem connectLoop_unroll {κ : Type}
    (dial : Nat → String → Opts → Option κ × Option ConnectError) (addr : String) (opts : Opts) :
    ∀ (k n i : Nat) (d : Int) (le : Option ConnectError) (tr : List ConnectEvent),
      (∀ j, j < k → NotReadyAt dial (i + j)) →
      ∃ le', connectLoop dial addr opts (n + k) i d le tr
        = connectLoop dial addr opts n (i + k) (d * 2 ^ k) le' (tr ++ backoff addr opts d k) := by
  intro k
  induction k with
  | zero => intro n i d le tr _; exact ⟨le, by simp [backoff]⟩
  | succ k ih =>
    intro n i d le tr h
    obtain ⟨c, e, hd, he⟩ := h 0 (Nat.succ_pos k) addr opts
    have h' : ∀ j, j < k → NotReadyAt dial (i + 1 + j) := fun j hj => by
      have := h (j + 1) (Nat.succ_lt_succ hj)
      rwa [show i + (j + 1) = i + 1 + j by omega] at this
    obtain ⟨le', hle⟩ := ih n (i + 1) (d * 2) (some e)
      (tr ++ [ConnectEvent.attempt addr opts] ++ [ConnectEvent.sleep d]) h'
    refine ⟨le', ?_⟩
    rw [show n + (k + 1) = (n + k) + 1 by omega]
    simp only [Nat.add_zero] at hd
    rw [connectLoop, hd]
    simp only [he, Bool.not_true, Bool.false_eq_true, if_false]
    rw [hle]
    congr 1
    · omega
    · rw [pow_succ]; ring
    · simp [backoff]

theorem connectLoop_trace {κ : Type}
    (dial : Nat → String → Opts → Option κ × Option ConnectError) (addr : String) (opts : Opts) :
    ∀ (n i : Nat) (d : Int) (le : Option ConnectError) (tr : List ConnectEvent),
      ∃ ev, (connectLoop dial addr opts n i d le tr).trace = tr ++ ev ∧
        (0 < n → ∃ ev', ev = ConnectEvent.attempt addr opts :: ev') := by
  intro n
  induction n with
  | zero => intro i d le tr; exact ⟨[], by simp [connectLoop], fun h => absurd h (by omega)⟩
  | succ n ih =>
    intro i d le tr
    rw [connectLoop]
    rcases hd : dial i addr opts with ⟨c, err⟩
    rcases err with _ | e
    · exact ⟨[ConnectEvent.attempt addr opts], by simp, fun _ => ⟨[], rfl⟩⟩
    · by_cases he : isNotReady e = true
      · obtain ⟨ev, hev, _⟩ := ih (i + 1) (d * 2) (some e)
          (tr ++ [ConnectEvent.attempt addr opts] ++ [ConnectEvent.sleep d])
        refine ⟨ConnectEvent.attempt addr opts :: ConnectEvent.sleep d :: ev, ?_, fun _ => ⟨_, rfl⟩⟩
        simp only [he, Bool.not_true, Bool.false_eq_true, if_false]
        rw [hev]
        simp
      · refine ⟨[ConnectEvent.attempt addr opts], ?_, fun _ => ⟨[], rfl⟩⟩
        simp [he]

theorem sleptBeforeFrom_backoff (addr : String) (opts : Opts) :
    ∀ (k : Nat) (d acc : Int) (rest : List ConnectEvent) (m : Nat),
      sleptBeforeFrom acc (backoff addr opts d k ++ rest) (k + (m + 1))
        = sleptBeforeFrom (acc + d * (2 ^ k - 1)) rest (m + 1) := by
  intro k
  induction k with
  | zero => intro d acc rest m; simp [backoff]
  | succ k ih =>
    intro d acc rest m
    rw [show k + 1 + (m + 1) = (k + m) + 2 by omega]
    show sleptBeforeFrom (acc + d) (backoff addr opts (d * 2) k ++ rest) (k + m + 1) = _
    rw [show k + m + 1 = k + (m + 1) by omega, ih]
    congr 1
    rw [pow_succ]; ring

theorem sleeps_append (a b : List ConnectEvent) : sleeps (a ++ b) = sleeps a ++ sleeps b := by
  induction a with
  | nil => rfl
  | cons x a ih => cases x <;> simp [sleeps, ih]

theorem sleeps_backoff (addr : String) (opts : Opts) :
    ∀ (k : Nat) (d : Int), (sleeps (backoff addr opts d k)).length = k ∧
      (sleeps (backoff addr opts d k)).sum = d * (2 ^ k - 1) := by
  intro k
  induction k with
  | zero => intro d; simp [backoff, sleeps]
  | succ k ih =>
    intro d
    obtain ⟨h1, h2⟩ := ih (d * 2)
    simp only [backoff, sleeps, List.length_cons, List.sum_cons, h1, h2]
    refine ⟨trivial, ?_⟩
    rw [pow_succ]; ring

theorem attempts_append (a b : List ConnectEvent) : attempts (a ++ b) = attempts a + attempts b := by
  induction a with
  | nil => simp [attempts]
  | cons x a ih => cases x <;> simp [attempts, ih]; omega

theorem totalSleep_append (a b : List ConnectEvent) :
    totalSleep (a ++ b) = totalSleep a + totalSleep b := by
  induction a with
  | nil => simp [totalSleep]
  | cons x a ih => cases x <;> simp [totalSleep, ih]; ring

theorem backoff_measures (addr : String) (opts : Opts) :
    ∀ (k : Nat) (d : Int), attempts (backoff addr opts d k) = k ∧
      totalSleep (backoff addr opts d k) = d * (2 ^ k - 1) := by
  intro k
  induction k with
  | zero => intro d; simp [backoff, attempts, totalSleep]
  | succ k ih =>
    intro d
    obtain ⟨h1, h2⟩ := ih (d * 2)
    simp only [backoff, attempts, totalSleep, h1, h2]
    refine ⟨trivial, ?_⟩
    rw [pow_succ]; ring

/-- The opening of `Connect`: the loop is entered with 10 iterations, delay 250ms. -/
theorem connect_eq_loop {κ : Type}
    (dial : Nat → String → Opts → Option κ × Option ConnectError) (db : PushDbConfig)
    (server : PushServerConfig) :
    ∃ opts, Connect dial db server
      = connectLoop dial server.DbConnect opts CONNECT_RETRY_COUNT 0 (250 * Millisecond) none [] :=
  ⟨_, rfl⟩

theorem connect_nth_attempt {κ : Type}
    (dial : Nat → String → Opts → Option κ × Option ConnectError) (db : PushDbConfig)
    (server : PushServerConfig) (N : Nat) (h1 : 1 ≤ N) (h10 : N ≤ 10)
    (h : ∀ i, i < N - 1 → NotReadyAt dial i) :
    sleptBefore (Connect dial db server).trace N
      = some (250 * Millisecond * (2 ^ (N - 1) - 1)) := by
  obtain ⟨opts, hc⟩ := connect_eq_loop dial db server
  obtain ⟨k, rfl⟩ : ∃ k, N = k + 1 := ⟨N - 1, by omega⟩
  simp only [Nat.add_sub_cancel] at h ⊢
  obtain ⟨le, hu⟩ := connectLoop_unroll dial server.DbConnect opts k (10 - k) 0
    (250 * Millisecond) none [] (fun j hj => by simpa using h j hj)
  rw [show 10 - k + k = CONNECT_RETRY_COUNT by simp [CONNECT_RETRY_COUNT]; omega] at hu
  obtain ⟨ev, hev, hatt⟩ := connectLoop_trace dial server.DbConnect opts (10 - k) (0 + k)
    (250 * Millisecond * 2 ^ k) le ([] ++ backoff server.DbConnect opts (250 * Millisecond) k)
  obtain ⟨ev', rfl⟩ := hatt (by omega)
  rw [hc, hu, hev, sleptBefore]
  simp only [List.nil_append]
  rw [sleptBeforeFrom_backoff]
  simp [sleptBeforeFrom]

theorem connect_first_sleeps {κ : Type}
    (dial : Nat → String → Opts → Option κ × Option ConnectError) (db : PushDbConfig)
    (server : PushServerConfig) (N : Nat) (h10 : N ≤ 10)
    (h : ∀ i, i < N → NotReadyAt dial i) :
    N ≤ (sleeps (Connect dial db server).trace).length ∧
    ((sleeps (Connect dial db server).trace).take N).sum
      = 250 * Millisecond * (2 ^ N - 1) := by
  obtain ⟨opts, hc⟩ := connect_eq_loop dial db server
  obtain ⟨le, hu⟩ := connectLoop_unroll dial server.DbConnect opts N (10 - N) 0
    (250 * Millisecond) none [] (fun j hj => by simpa using h j hj)
  rw [show 10 - N + N = CONNECT_RETRY_COUNT by simp [CONNECT_RETRY_COUNT]; omega] at hu
  obtain ⟨ev, hev, _⟩ := connectLoop_trace dial server.DbConnect opts (10 - N) (0 + N)
    (250 * Millisecond * 2 ^ N) le ([] ++ backoff server.DbConnect opts (250 * Millisecond) N)
  obtain ⟨hl, hs⟩ := sleeps_backoff server.DbConnect opts N (250 * Millisecond)
  rw [hc, hu, hev]
  simp only [List.nil_append, sleeps_append]
  constructor
  · simp [hl]
  · rw [List.take_append_of_le_length (by omega), List.take_of_length_le (by omega), hs]

theorem connect_fatal_error {κ : Type}
    (dial : Nat → String → Opts → Option κ × Option ConnectError) (db : PushDbConfig)
    (server : PushServerConfig) (k : Nat) (hk : k < 10)
    (h : ∀ i, i < k → NotReadyAt dial i) (c : Option κ) (e : ConnectError)
    (hd : ∀ a o, dial k a o = (c, some e)) (he : isNotReady e = false) :
    (Connect dial db server).client = c ∧ (Connect dial db server).err = some e ∧
    attempts (Connect dial db server).trace = k + 1 ∧
    totalSleep (Connect dial db server).trace = 250 * Millisecond * (2 ^ k - 1) ∧
    ∃ a o, (Connect dial db server).trace.getLast? = some (ConnectEvent.attempt a o) := by
  obtain ⟨opts, hc⟩ := connect_eq_loop dial db server
  obtain ⟨le, hu⟩ := connectLoop_unroll dial server.DbConnect opts k (10 - k) 0
    (250 * Millisecond) none [] (fun j hj => by simpa using h j hj)
  rw [show 10 - k + k = CONNECT_RETRY_COUNT by simp [CONNECT_RETRY_COUNT]; omega] at hu
  obtain ⟨n, hn⟩ : ∃ n, 10 - k = n + 1 := ⟨9 - k, by omega⟩
  obtain ⟨ha, hs⟩ := backoff_measures server.DbConnect opts k (250 * Millisecond)
  rw [hc, hu, hn, connectLoop]
  simp only [Nat.zero_add, hd, he, List.nil_append, Bool.not_false, if_true]
  refine ⟨trivial, trivial, ?_, ?_, server.DbConnect, opts, ?_⟩
  · simp [attempts_append, ha, attempts]
  · simp [totalSleep_append, hs, totalSleep]
  · simp

theorem wrap32_wrap32_add (a b : Int) : wrap32 (wrap32 a + b) = wrap32 (a + b) := by
  unfold wrap32
  omega

theorem wrap32_of_range (a : Int) (h0 : -2 ^ 31 ≤ a) (h1 : a < 2 ^ 31) : wrap32 a = a := by
  unfold wrap32
  omega

theorem tdiv_ten_ne_zero (t : Int) (h : 10 ≤ t) : t.tdiv 10 ≠ 0 := by
  rw [Int.tdiv_eq_ediv (by omega) (by omega)]
  omega

/-- One call of `increment` on a state whose divisor `total / 10` is not zero. -/
theorem increment_step (p : Progress) (now : Int) (hd : p.total.tdiv 10 ≠ 0) :
    ∃ p' s, p.increment now = .ok (p', s) ∧ p'.total = p.total ∧
      p'.count = wrap32 (p.count + 1) ∧
      (p'.count = 1 → s = none ∧ p'.last_count = 0) ∧
      (p'.count ≠ 1 →
        (p.total.tdiv 10 ∣ p'.count →
          (∃ smp, s = some smp ∧ smp.new_count = p'.count) ∧ p'.last_count = p'.count) ∧
        (¬ p.total.tdiv 10 ∣ p'.count → s = none ∧ p'.last_count = p.last_count)) := by
  unfold Progress.increment
  by_cases h1 : wrap32 (p.count + 1) = 1
  · simp only [h1, if_true]
    exact ⟨_, _, rfl, rfl, rfl, fun _ => ⟨rfl, rfl⟩, fun h => absurd rfl h⟩
  · by_cases hm : (wrap32 (p.count + 1)).tmod (p.total.tdiv 10) = 0
    · have hdvd : p.total.tdiv 10 ∣ wrap32 (p.count + 1) := Int.dvd_of_tmod_eq_zero hm
      simp only [h1, hd, hm, if_true, if_false]
      exact ⟨_, _, rfl, rfl, rfl, fun h => absurd h h1,
        fun _ => ⟨fun _ => ⟨⟨_, rfl, rfl⟩, rfl⟩, fun h => absurd hdvd h⟩⟩
    · have hdvd : ¬ p.total.tdiv 10 ∣ wrap32 (p.count + 1) :=
        fun h => hm (Int.tmod_eq_zero_of_dvd h)
      simp only [h1, hd, hm, if_false]
      exact ⟨_, _, rfl, rfl, rfl, fun h => absurd h h1,
        fun _ => ⟨fun h => absurd h hdvd, fun _ => ⟨rfl, rfl⟩⟩⟩

theorem incrementAll_total (nows : List Int) :
    ∀ p : Progress, p.total.tdiv 10 ≠ 0 → wrap32 p.count = p.count →
      ∃ q ss, incrementAll p nows = .ok (q, ss) ∧ q.total = p.total ∧
        q.count = wrap32 (p.count + nows.length) ∧ ss.length = nows.length := by
  induction nows with
  | nil =>
    intro p _ hr
    exact ⟨p, [], rfl, rfl, by simpa using hr.symm, rfl⟩
  | cons now rest ih =>
    intro p hd _
    obtain ⟨p', s, hp, ht, hc, _⟩ := increment_step p now hd
    obtain ⟨q, ss, hq, hqt, hqc, hl⟩ := ih p' (by rw [ht]; exact hd)
      (by rw [hc]; unfold wrap32; omega)
    refine ⟨q, s :: ss, ?_, by rw [hqt, ht], ?_, by simp [hl]⟩
    · simp [incrementAll, hp, hq]
    · rw [hqc, hc, wrap32_wrap32_add]
      congr 1
      simp only [List.length_cons]
      push_cast
      ring

theorem newPushDbModel_ok {σ : Type} (client : Connection σ) (h : AllCallsSucceed client) :
    ∃ model, NewPushDbModel client = some model ∧ model.dbconn = client := by
  obtain ⟨⟨sp, hsp⟩, _⟩ := h
  have hm : NewPushDbModel client
      = some ⟨client, sp, sp.2.find? (fun ix => ix == "primary")⟩ := by
    simp [NewPushDbModel, hsp]
  exact ⟨_, hm, rfl⟩

theorem doCreateDev_ok {σ : Type} (model : PushDbModel σ) (h : AllCallsSucceed model.dbconn)
    (w : σ) (dev_id auth push_token push_tech : String) (now : Millitime) :
    ∃ x w', doCreateDev model w dev_id auth push_token push_tech now
      = ((some x, RES_OK, none), w') := by
  obtain ⟨x, hx⟩ := h.2.1 w "push_CreateDev"
    [Arg.str dev_id, Arg.str auth, Arg.str push_token, Arg.str push_tech, Arg.time now]
  rcases hq : model.dbconn.CallTypedDevEnt w "push_CreateDev"
    [Arg.str dev_id, Arg.str auth, Arg.str push_token, Arg.str push_tech, Arg.time now]
    with ⟨r, w'⟩
  rw [hq] at hx
  simp only at hx
  subst hx
  exact ⟨x, w', by simp [doCreateDev, hq]⟩

theorem doCreateSub_ok {σ : Type} (model : PushDbModel σ) (h : AllCallsSucceed model.dbconn)
    (w : σ) (dev_id sub_id : String) (now : Millitime) :
    ∃ w', doCreateSub model w dev_id sub_id now = ((RES_OK, none), w') := by
  obtain ⟨s, hx⟩ := h.2.2 w "push_CreateSub" [Arg.str dev_id, Arg.str sub_id, Arg.time now]
  rcases hq : model.dbconn.CallTypedResultEnt w "push_CreateSub"
    [Arg.str dev_id, Arg.str sub_id, Arg.time now] with ⟨r, w'⟩
  rw [hq] at hx
  simp only at hx
  subst hx
  exact ⟨w', by simp [doCreateSub, hq]⟩

theorem doPingChangeSub_ok {σ : Type} (model : PushDbModel σ)
    (h : AllCallsSucceed model.dbconn) (w : σ) (dev_id sub_id : String) (change : Bool)
    (ts : Millitime) :
    ∃ w', doPingChangeSub model w dev_id sub_id change ts = ((RES_OK, none), w') := by
  obtain ⟨s, hx⟩ := h.2.2 w (if change then "push_ChangeSub" else "push_PingSub")
    [Arg.str dev_id, Arg.str sub_id, Arg.time ts]
  rcases hq : model.dbconn.CallTypedResultEnt w
    (if change then "push_ChangeSub" else "push_PingSub")
    [Arg.str dev_id, Arg.str sub_id, Arg.time ts] with ⟨r, w'⟩
  rw [hq] at hx
  simp only at hx
  subst hx
  exact ⟨w', by simp [doPingChangeSub, hq]⟩

theorem genRandomString_ok {σ : Type} (rt : Runtime σ) (w : σ) (keylen : Int)
    (h : 0 ≤ keylen) : ∃ s w', genRandomString rt w keylen = some (s, w') := by
  unfold genRandomString
  rw [if_neg (by omega)]
  exact ⟨_, _, rfl⟩

theorem subsCreate_ok {σ : Type} (model : PushDbModel σ) (h : AllCallsSucceed model.dbconn)
    (rt : Runtime σ) (keylen : Int) (hk : 0 ≤ keylen) (w : σ) :
    ∃ dev_id sub_id w', subsCreate model rt keylen w = .ok ((dev_id, sub_id), w') := by
  unfold subsCreate
  obtain ⟨sub_id, w1, h1⟩ := genRandomString_ok rt w keylen hk
  obtain ⟨dev_id, w2, h2⟩ := genRandomString_ok rt w1 keylen hk
  obtain ⟨auth, w3, h3⟩ := genRandomString_ok rt w2 AUTH_STRING_LEN (by decide)
  simp only [h1, h2, h3]
  obtain ⟨x, w4, h4⟩ := doCreateDev_ok model h (milliTime rt (genPushToken rt w3).2).2 dev_id auth
    (genPushToken rt w3).1 PUSH_TECH_GCM (milliTime rt (genPushToken rt w3).2).1
  simp only [h4]
  obtain ⟨w5, h5⟩ := doCreateSub_ok model h w4 dev_id sub_id
    (milliTime rt (genPushToken rt w3).2).1
  simp only [h5]
  exact ⟨dev_id, sub_id, w5, by simp⟩

theorem subsMore_ok {σ : Type} (model : PushDbModel σ) (h : AllCallsSucceed model.dbconn)
    (rt : Runtime σ) (keylen : Int) (hk : 0 ≤ keylen) (w : σ) (dev_id : String) :
    ∃ w', subsMore model rt keylen w dev_id = .ok w' := by
  unfold subsMore
  obtain ⟨sub_id, w1, h1⟩ := genRandomString_ok rt w keylen hk
  simp only [h1]
  obtain ⟨w2, h2⟩ := doCreateSub_ok model h (milliTime rt w1).2 dev_id sub_id (milliTime rt w1).1
  simp only [h2]
  exact ⟨w2, by simp⟩

theorem subsLoop1_ok {σ : Type} (model : PushDbModel σ) (h : AllCallsSucceed model.dbconn)
    (rt : Runtime σ) (keylen : Int) (hk : 0 ≤ keylen) :
    ∀ (n : Nat) (w : σ) (ld ls : List String),
      ∃ (ts : List Int) (ld' ls' : List String) (w' : σ), subsLoop1 model rt keylen n w ld ls
          = (ts.map Action.increment, some (ld', ls', w')) ∧
        ts.length = n ∧ ld'.length = ld.length + n ∧ ls'.length = ls.length + n := by
  intro n
  induction n with
  | zero => intro w ld ls; exact ⟨[], ld, ls, w, rfl, rfl, rfl, rfl⟩
  | succ n ih =>
    intro w ld ls
    obtain ⟨dev_id, sub_id, w1, h1⟩ := subsCreate_ok model h rt keylen hk w
    obtain ⟨ts, ld', ls', w', hl, ht, hd, hs⟩ := ih (rt.UnixNano w1).2 (ld ++ [dev_id])
      (ls ++ [sub_id])
    refine ⟨(rt.UnixNano w1).1 :: ts, ld', ls', w', ?_, by simp [ht], ?_, ?_⟩
    · simp only [subsLoop1, h1, hl, List.map_cons]
    · simp at hd; omega
    · simp at hs; omega

theorem subsLoop2_ok {σ : Type} (model : PushDbModel σ) (h : AllCallsSucceed model.dbconn)
    (rt : Runtime σ) (keylen : Int) (hk : 0 ≤ keylen) (ld : List String) :
    ∀ (n i : Nat) (w : σ), i + n ≤ ld.length →
      ∃ (ts : List Int) (w' : σ), subsLoop2 model rt keylen ld n i w = (ts.map Action.increment, some w') ∧
        ts.length = 2 * n := by
  intro n
  induction n with
  | zero => intro i w _; exact ⟨[], w, rfl, rfl⟩
  | succ n ih =>
    intro i w hi
    have hlt : i < ld.length := by omega
    obtain ⟨w1, h1⟩ := subsMore_ok model h rt keylen hk w ld[i]
    obtain ⟨w2, h2⟩ := subsMore_ok model h rt keylen hk (rt.UnixNano w1).2 ld[i]
    obtain ⟨ts, w', hl, ht⟩ := ih (i + 1) (rt.UnixNano w2).2 (by omega)
    refine ⟨(rt.UnixNano w1).1 :: (rt.UnixNano w2).1 :: ts, w', ?_, by simp [ht]; omega⟩
    simp only [subsLoop2, List.getElem?_eq_getElem hlt, h1, h2, hl, List.map_cons]

theorem runFuncSubs_ok {σ : Type} (client : Connection σ) (h : AllCallsSucceed client)
    (rt : Runtime σ) (lists : Lists) (keylen numreq : Int) (hk : 0 ≤ keylen)
    (hn : 0 ≤ numreq) (w : σ) :
    ∃ (ts : List Int) (ld ls : List String), runFuncSubs client rt lists keylen numreq w
        = ts.map Action.increment ++ [Action.publish ld ls numreq] ∧
      ts.length = 3 * numreq.toNat ∧ ld.length = numreq.toNat ∧ ls.length = numreq.toNat := by
  obtain ⟨model, hm, hc⟩ := newPushDbModel_ok client h
  have h' : AllCallsSucceed model.dbconn := by rw [hc]; exact h
  obtain ⟨ts1, ld, ls, w1, h1, ht1, hld, hls⟩ :=
    subsLoop1_ok model h' rt keylen hk numreq.toNat w [] []
  obtain ⟨ts2, w2, h2, ht2⟩ :=
    subsLoop2_ok model h' rt keylen hk ld numreq.toNat 0 w1 (by simp at hld; omega)
  refine ⟨ts1 ++ ts2, ld, ls, ?_, by simp [ht1, ht2]; omega, by simpa using hld,
    by simpa using hls⟩
  unfold runFuncSubs
  simp only [if_neg (not_lt.mpr hn), hm, h1, h2, List.map_append]

theorem pingLoop_ok {σ : Type} (model : PushDbModel σ) (h : AllCallsSucceed model.dbconn)
    (rt : Runtime σ) (change : Bool) (ld ls : List String) :
    ∀ (n i : Nat) (w : σ), i + n ≤ ld.length → i + n ≤ ls.length →
      ∃ ts : List Int, pingLoop model rt change (some ld) (some ls) n i w = ts.map Action.increment ∧
        ts.length = n := by
  intro n
  induction n with
  | zero => intro i w _ _; exact ⟨[], rfl, rfl⟩
  | succ n ih =>
    intro i w hd hs
    have hlt : i < ld.length := by omega
    have hlt' : i < ls.length := by omega
    obtain ⟨w1, h1⟩ := doPingChangeSub_ok model h (milliTime rt w).2 ld[i] ls[i] change
      (milliTime rt w).1
    obtain ⟨ts, hl, ht⟩ := ih (i + 1) (rt.UnixNano w1).2 (by omega) (by omega)
    refine ⟨(rt.UnixNano w1).1 :: ts, ?_, by simp [ht]⟩
    simp [pingLoop, List.getElem?_eq_getElem hlt, List.getElem?_eq_getElem hlt', h1, hl]

theorem wrap32_idem (a : Int) : wrap32 (wrap32 a) = wrap32 a := by
  unfold wrap32
  omega

theorem len_getD_append (l : Option (List String)) (m : List String) :
    len (some (l.getD [] ++ m)) = len l + m.length := by
  cases l <;> simp [len]

theorem applyAction_ok (g : Global) (a : Action) (hs : isStop a = false) (hg : Sound g) :
    ∃ g', applyAction g a = .ok g' ∧ Sound g' ∧ Advanced g g' (incOf a) (devsOf a) (subsOf a) := by
  obtain ⟨hd, hr⟩ := hg
  cases a with
  | increment now =>
    obtain ⟨p', s, hp, ht, hc, _⟩ := increment_step g.progress now hd
    refine ⟨{ g with progress := p', samples := g.samples ++ s.toList }, ?_, ⟨?_, ?_⟩,
      ht, ?_, ?_, ?_⟩
    · simp [applyAction, hp]
    · simpa [ht] using hd
    · simp only [hc, wrap32_idem]
    · simpa [incOf] using hc
    · simp [devsOf]
    · simp [subsOf]
  | publish ld ls n =>
    refine ⟨{ g with lists := publish g.lists ld ls }, rfl, ⟨hd, hr⟩, rfl, ?_, ?_, ?_⟩
    · simpa [incOf] using hr.symm
    · simp [publish, devsOf, len_getD_append]
    · simp [publish, subsOf, len_getD_append]
  | stop s => simp [isStop] at hs

theorem Advanced.trans {g g' g'' : Global} {i d s i' d' s' : Nat} (h : Advanced g g' i d s)
    (h' : Advanced g' g'' i' d' s') : Advanced g g'' (i + i') (d + d') (s + s') := by
  obtain ⟨ht, hc, hd, hs⟩ := h
  obtain ⟨ht', hc', hd', hs'⟩ := h'
  refine ⟨by rw [ht', ht], ?_, by omega, by omega⟩
  rw [hc', hc, wrap32_wrap32_add]
  congr 1
  push_cast
  ring

theorem drain_ok : ∀ (l : List Action) (g : Global), (∀ a ∈ l, isStop a = false) → Sound g →
    ∃ g', drain l g = .ok g' ∧ Sound g' ∧
      Advanced g g' (l.map incOf).sum (l.map devsOf).sum (l.map subsOf).sum := by
  intro l
  induction l with
  | nil =>
    intro g _ hg
    refine ⟨g, rfl, hg, rfl, ?_, rfl, rfl⟩
    simpa using hg.2.symm
  | cons a l ih =>
    intro g hs hg
    obtain ⟨g1, h1, hg1, ha1⟩ := applyAction_ok g a (hs a (by simp)) hg
    obtain ⟨g2, h2, hg2, ha2⟩ := ih g1 (fun b hb => hs b (by simp [hb])) hg1
    refine ⟨g2, by simp [drain, h1, h2], hg2, ?_⟩
    simpa using ha1.trans ha2

theorem flatten_set_perm : ∀ (pending : List (List Action)) (k : Nat) (a : Action)
    (rest : List Action), pending[k]? = some (a :: rest) →
    pending.flatten.Perm (a :: (pending.set k rest).flatten) := by
  intro pending
  induction pending with
  | nil => intro k a rest h; simp at h
  | cons t ps ih =>
    intro k a rest h
    cases k with
    | zero =>
      simp at h
      subst h
      simp
    | succ k =>
      simp at h
      have := ih k a rest h
      simp only [List.flatten_cons, List.set_cons_succ]
      exact (List.Perm.append_left t this).trans List.perm_middle

theorem runSchedule_ok : ∀ (sched : List Nat) (g : Global) (pending : List (List Action)),
    (∀ a ∈ pending.flatten, isStop a = false) → Sound g →
    ∃ g' pending', runSchedule sched g pending = .ok (g', pending') ∧ Sound g' ∧
      (∀ a ∈ pending'.flatten, isStop a = false) ∧
      ∃ i d s, Advanced g g' i d s ∧
        (pending.flatten.map incOf).sum = i + (pending'.flatten.map incOf).sum ∧
        (pending.flatten.map devsOf).sum = d + (pending'.flatten.map devsOf).sum ∧
        (pending.flatten.map subsOf).sum = s + (pending'.flatten.map subsOf).sum := by
  intro sched
  induction sched with
  | nil =>
    intro g pending hs hg
    refine ⟨g, pending, rfl, hg, hs, 0, 0, 0, ⟨rfl, ?_, rfl, rfl⟩, by simp, by simp, by simp⟩
    simpa using hg.2.symm
  | cons k ks ih =>
    intro g pending hs hg
    rcases hk : pending[k]? with _ | t
    · obtain ⟨g', p', hr, rest⟩ := ih g pending hs hg
      exact ⟨g', p', by simp [runSchedule, stepWorker, hk, hr], rest⟩
    · cases t with
      | nil =>
        obtain ⟨g', p', hr, rest⟩ := ih g pending hs hg
        exact ⟨g', p', by simp [runSchedule, stepWorker, hk, hr], rest⟩
      | cons a rest =>
        have hp := flatten_set_perm pending k a rest hk
        obtain ⟨g1, h1, hg1, ha1⟩ := applyAction_ok g a
          (hs a (hp.mem_iff.mpr (by simp))) hg
        obtain ⟨g', p', hr, hg', hs', i, d, s, hadv, hi, hd, hss⟩ := ih g1 (pending.set k rest)
          (fun b hb => hs b (hp.mem_iff.mpr (by simp [hb]))) hg1
        refine ⟨g', p', by simp [runSchedule, stepWorker, hk, h1, hr], hg', hs',
          incOf a + i, devsOf a + d, subsOf a + s, ha1.trans hadv, ?_, ?_, ?_⟩
        · rw [(hp.map incOf).sum_eq, List.map_cons, List.sum_cons, hi]; omega
        · rw [(hp.map devsOf).sum_eq, List.map_cons, List.sum_cons, hd]; omega
        · rw [(hp.map subsOf).sum_eq, List.map_cons, List.sum_cons, hss]; omega

/-- Whatever the schedule, workers that never stop the process take the shared state
through all their actions. -/
theorem schedule_drain_ok (sched : List Nat) (g : Global) (pending : List (List Action))
    (hs : ∀ a ∈ pending.flatten, isStop a = false) (hg : Sound g) :
    ∃ g', (match runSchedule sched g pending with
        | Except.error s => (Except.error s : Except Stop Global)
        | Except.ok (g, pending) => drain pending.flatten g) = Except.ok g' ∧
      Advanced g g' (pending.flatten.map incOf).sum (pending.flatten.map devsOf).sum
        (pending.flatten.map subsOf).sum := by
  obtain ⟨g1, p1, hr, hg1, hs1, i, d, s, hadv, hi, hd, hss⟩ := runSchedule_ok sched g pending hs hg
  obtain ⟨g2, h2, _, hadv2⟩ := drain_ok p1.flatten g1 hs1 hg1
  refine ⟨g2, by simp [hr, h2], ?_⟩
  rw [hi, hd, hss]
  exact hadv.trans hadv2

theorem flatten_sum_const (f : Action → Nat) (c : Nat) :
    ∀ pending : List (List Action), (∀ t ∈ pending, (t.map f).sum = c) →
      (pending.flatten.map f).sum = pending.length * c := by
  intro pending
  induction pending with
  | nil => intro _; simp
  | cons t ps ih =>
    intro h
    simp only [List.flatten_cons, List.map_append, List.sum_append, List.length_cons]
    rw [h t (by simp), ih (fun u hu => h u (by simp [hu]))]
    ring

theorem increments_measures (ts : List Int) :
    ((ts.map Action.increment).map incOf).sum = ts.length ∧
    ((ts.map Action.increment).map devsOf).sum = 0 ∧
    ((ts.map Action.increment).map subsOf).sum = 0 ∧
    ∀ a ∈ ts.map Action.increment, isStop a = false := by
  induction ts with
  | nil => simp
  | cons t ts ih =>
    obtain ⟨h1, h2, h3, h4⟩ := ih
    refine ⟨?_, ?_, ?_, ?_⟩
    · simp only [List.map_cons, List.sum_cons, h1, incOf, List.length_cons]; omega
    · simp only [List.map_cons, List.sum_cons, h2, devsOf]
    · simp only [List.map_cons, List.sum_cons, h3, subsOf]
    · intro a ha
      simp only [List.map_cons, List.mem_cons] at ha
      rcases ha with rfl | ha
      · rfl
      · exact h4 a ha

theorem numreq_nonneg (flags : Flags) (hc : 1 ≤ flags.conc) (ht : 0 ≤ flags.total) :
    0 ≤ flags.total.tdiv flags.conc := by
  rw [Int.tdiv_eq_ediv ht (by omega)]
  exact Int.ediv_nonneg ht (by omega)

theorem newProgress_sound (total : Int) (lists : Lists)
    (hd : (NewProgress total).total.tdiv 10 ≠ 0) :
    Sound { lists := lists, progress := NewProgress total, samples := [] } :=
  ⟨hd, rfl⟩

/-- A run of the harness whose workers never stop the process. -/
theorem runHarness_ok {σ : Type} (flags : Flags) (client : Connection σ) (rt : Runtime σ)
    (worker : WorkerFunc σ) (requireLists : Bool) (envs : Nat → σ) (sched : List Nat)
    (lists : Lists) (i d s : Nat) (hc : 0 ≤ flags.conc)
    (hreq : ¬ (requireLists = true ∧ lists.LIST_SUBS = none))
    (hd : (NewProgress flags.total).total.tdiv 10 ≠ 0)
    (hw : ∀ w, (∀ a ∈ worker client rt lists flags.keylen (flags.total.tdiv flags.conc) w,
        isStop a = false) ∧
      ((worker client rt lists flags.keylen (flags.total.tdiv flags.conc) w).map incOf).sum = i ∧
      ((worker client rt lists flags.keylen (flags.total.tdiv flags.conc) w).map devsOf).sum = d ∧
      ((worker client rt lists flags.keylen (flags.total.tdiv flags.conc) w).map subsOf).sum = s) :
    ∃ g, runHarness flags client rt worker requireLists envs sched lists = .ok g ∧
      g.progress.count = wrap32 (flags.conc.toNat * i : Nat) ∧
      len g.lists.LIST_DEVS = len lists.LIST_DEVS + flags.conc.toNat * d ∧
      len g.lists.LIST_SUBS = len lists.LIST_SUBS + flags.conc.toNat * s := by
  have hstop : ∀ a ∈ ((List.range flags.conc.toNat).map
      (fun i => worker client rt lists flags.keylen (flags.total.tdiv flags.conc)
        (envs i))).flatten, isStop a = false := by
    intro a ha
    simp only [List.mem_flatten, List.mem_map] at ha
    obtain ⟨t, ⟨j, _, rfl⟩, hat⟩ := ha
    exact (hw (envs j)).1 a hat
  have hsum : ∀ (f : Action → Nat) (c : Nat),
      (∀ w, ((worker client rt lists flags.keylen (flags.total.tdiv flags.conc) w).map f).sum = c) →
      ((((List.range flags.conc.toNat).map
        (fun i => worker client rt lists flags.keylen (flags.total.tdiv flags.conc)
          (envs i))).flatten).map f).sum = flags.conc.toNat * c := by
    intro f c hf
    rw [flatten_sum_const f c]
    · simp
    · intro t ht
      simp only [List.mem_map] at ht
      obtain ⟨j, _, rfl⟩ := ht
      exact hf (envs j)
  obtain ⟨g, hg, hadv⟩ := schedule_drain_ok sched
    { lists := lists, progress := NewProgress flags.total, samples := [] } _ hstop
    (newProgress_sound flags.total lists hd)
  rw [hsum incOf i (fun w => (hw w).2.1), hsum devsOf d (fun w => (hw w).2.2.1),
    hsum subsOf s (fun w => (hw w).2.2.2)] at hadv
  obtain ⟨_, h2, h3, h4⟩ := hadv
  refine ⟨g, ?_, ?_, h3, h4⟩
  · unfold runHarness
    rw [if_neg hreq, if_neg (by omega)]
    exact hg
  · rw [h2]
    simp [NewProgress]

theorem runHarness_subs_ok {σ : Type} (flags : Flags) (client : Connection σ)
    (rt : Runtime σ) (envs : Nat → σ) (sched : List Nat) (lists : Lists)
    (h : AllCallsSucceed client) (hc : 1 ≤ flags.conc) (ht : 0 ≤ flags.total)
    (hk : 0 ≤ flags.keylen) (hd : (NewProgress flags.total).total.tdiv 10 ≠ 0) :
    ∃ g, runHarness flags client rt runFuncSubs false envs sched lists = .ok g ∧
      g.progress.count
        = wrap32 (flags.conc.toNat * (3 * (flags.total.tdiv flags.conc).toNat) : Nat) ∧
      len g.lists.LIST_DEVS
        = len lists.LIST_DEVS + flags.conc.toNat * (flags.total.tdiv flags.conc).toNat ∧
      len g.lists.LIST_SUBS
        = len lists.LIST_SUBS + flags.conc.toNat * (flags.total.tdiv flags.conc).toNat := by
  apply runHarness_ok flags client rt runFuncSubs false envs sched lists _ _ _ (by omega)
    (by simp) hd
  intro w
  obtain ⟨ts, ld, ls, hrun, hts, hld, hls⟩ := runFuncSubs_ok client h rt lists flags.keylen
    (flags.total.tdiv flags.conc) hk (numreq_nonneg flags hc ht) w
  obtain ⟨m1, m2, m3, m4⟩ := increments_measures ts
  rw [hrun]
  refine ⟨?_, ?_, ?_, ?_⟩
  · intro a ha
    simp only [List.mem_append, List.mem_singleton] at ha
    rcases ha with ha | rfl
    · exact m4 a ha
    · rfl
  · simp only [List.map_append, List.sum_append, m1, hts, List.map_cons, List.map_nil,
      List.sum_cons, List.sum_nil, incOf]
    omega
  · simp only [List.map_append, List.sum_append, m2, hld, List.map_cons, List.map_nil,
      List.sum_cons, List.sum_nil, devsOf]
    omega
  · simp only [List.map_append, List.sum_append, m3, hls, List.map_cons, List.map_nil,
      List.sum_cons, List.sum_nil, subsOf]
    omega

theorem runHarness_ping_ok {σ : Type} (change : Bool) (flags : Flags)
    (client : Connection σ) (rt : Runtime σ) (envs : Nat → σ) (sched : List Nat)
    (ld ls : List String) (h : AllCallsSucceed client) (hc : 1 ≤ flags.conc)
    (hd : (NewProgress flags.total).total.tdiv 10 ≠ 0)
    (hld : (flags.total.tdiv flags.conc).toNat ≤ ld.length)
    (hls : (flags.total.tdiv flags.conc).toNat ≤ ls.length) :
    ∃ g, runHarness flags client rt (if change then runFuncChange else runFuncPing) true envs
        sched { LIST_DEVS := some ld, LIST_SUBS := some ls } = .ok g ∧
      g.progress.count
        = wrap32 (flags.conc.toNat * (flags.total.tdiv flags.conc).toNat : Nat) ∧
      len g.lists.LIST_DEVS = ld.length ∧ len g.lists.LIST_SUBS = ls.length := by
  obtain ⟨model, hm, hmc⟩ := newPushDbModel_ok client h
  have h' : AllCallsSucceed model.dbconn := by rw [hmc]; exact h
  have hw : ∀ w, ∃ ts : List Int,
      (if change then runFuncChange else runFuncPing) client rt
        { LIST_DEVS := some ld, LIST_SUBS := some ls } flags.keylen
        (flags.total.tdiv flags.conc) w = ts.map Action.increment ∧
      ts.length = (flags.total.tdiv flags.conc).toNat := by
    intro w
    obtain ⟨ts, hl, hts⟩ := pingLoop_ok model h' rt change ld ls
      (flags.total.tdiv flags.conc).toNat 0 w (by omega) (by omega)
    refine ⟨ts, ?_, hts⟩
    cases change
    · simpa [runFuncPing, hm] using hl
    · simpa [runFuncChange, hm] using hl
  obtain ⟨g, hg, hcount, hdv, hsb⟩ := runHarness_ok flags client rt
    (if change then runFuncChange else runFuncPing) true envs sched
    { LIST_DEVS := some ld, LIST_SUBS := some ls } (flags.total.tdiv flags.conc).toNat 0 0
    (by omega) (by simp) hd (by
      intro w
      obtain ⟨ts, hrun, hts⟩ := hw w
      obtain ⟨m1, m2, m3, m4⟩ := increments_measures ts
      rw [hrun]
      exact ⟨m4, by rw [m1, hts], m2, m3⟩)
  exact ⟨g, hg, hcount, by simpa [len] using hdv, by simpa [len] using hsb⟩

theorem okConn_succeeds : AllCallsSucceed okConn :=
  ⟨⟨("devs", ["primary"]), by decide⟩, fun _ _ _ => ⟨⟨"d", "a", "p", "g", 0, 0, 0⟩, rfl⟩,
    fun _ _ _ => ⟨"", rfl⟩⟩

theorem dialNotReady_at (i : Nat) : NotReadyAt dialNotReady i :=
  fun _ _ => ⟨_, _, rfl, rfl⟩

/-! ## The claims -/

/-- C1. Round trip of the tuple codec: whatever was written before (`e`) and whatever
follows (`rest`), each encoder succeeds and appends objects `b` from which the matching
decoder, filling any record `m`, succeeds with the encoded record `x`, field for field, and
leaves `rest`.  No condition on the strings, timestamps or integers is needed. -/
theorem codec_round_trip (e rest : List Item) :
    (∀ x m : DevEnt, ∃ b, encodeDevEnt e x = .ok (e ++ b) ∧
      decodeDevEnt (b ++ rest) m = .ok (x, rest)) ∧
    (∀ x m : SubEnt, ∃ b, encodeSubEnt e x = .ok (e ++ b) ∧
      decodeSubEnt (b ++ rest) m = .ok (x, rest)) ∧
    (∀ x m : ResultEnt, ∃ b, encodeResultEnt e x = .ok (e ++ b) ∧
      decodeResultEnt (b ++ rest) m = .ok (x, rest)) := by
  refine ⟨fun x m => ?_, fun x m => ?_, fun x m => ?_⟩
  · refine ⟨[Item.arrayLen 7, Item.str x.dev_id, Item.str x.auth, Item.str x.push_token,
      Item.str x.push_tech, Item.int x.ping_ts, Item.int x.change_ts,
      Item.int x.change_count], ?_, ?_⟩
    · simp [encodeDevEnt, EncodeSliceLen, EncodeString, encodeMilliTime, EncodeInt64, EncodeInt]
    · simp [decodeDevEnt, DecodeSliceLen, DecodeString, decodeMilliTime, DecodeInt64, DecodeInt]
  · refine ⟨[Item.arrayLen 4, Item.str x.sub_id, Item.str x.dev_id, Item.int x.ping_ts,
      Item.int x.change_ts], ?_, ?_⟩
    · simp [encodeSubEnt, EncodeSliceLen, EncodeString, encodeMilliTime, EncodeInt64]
    · simp [decodeSubEnt, DecodeSliceLen, DecodeString, decodeMilliTime, DecodeInt64]
  · refine ⟨[Item.arrayLen 2, Item.int x.code, Item.str x.s], ?_, ?_⟩
    · simp [encodeResultEnt, EncodeSliceLen, EncodeString, EncodeInt64, EncodeInt]
    · simp [decodeResultEnt, DecodeSliceLen, DecodeString, DecodeInt64, DecodeInt]

/-- C2. Arity rejection: when the array header at the front of the payload `d` gives the
length `l`, then whatever follows it (`rest`) and whatever record is to be filled,
`decodeDevEnt` fails for `l ≠ 7`, `decodeSubEnt` fails for `l ≠ 4` and `decodeResultEnt`
fails for `l < 1` or `l > 2`, each with its arity error naming the observed length. -/
theorem decode_arity_rejection (d rest : Decoder) (l : Int)
    (h : DecodeSliceLen d = .ok (l, rest)) :
    (∀ m, l ≠ 7 →
      decodeDevEnt d m = .error ("decodeDevEnt array len doesn't match: " ++ toString l)) ∧
    (∀ m, l ≠ 4 →
      decodeSubEnt d m = .error ("decodeSubEnt array len doesn't match: " ++ toString l)) ∧
    (∀ m, l < 1 ∨ l > 2 →
      decodeResultEnt d m
        = .error ("decodeResultEnt array len doesn't match: " ++ toString l)) := by
  refine ⟨fun m hl => ?_, fun m hl => ?_, fun m hl => ?_⟩
  · simp [decodeDevEnt, h, hl]
  · simp [decodeSubEnt, h, hl]
  · simp [decodeResultEnt, h, hl]

/-- C2 at a payload announcing 3 elements: all three decoders reject it. -/
theorem decode_arity_rejection_witness :
    DecodeSliceLen [Item.arrayLen 3, Item.int 0, Item.str "x", Item.other]
      = .ok (3, [Item.int 0, Item.str "x", Item.other]) ∧
    ((∀ m, (3 : Int) ≠ 7 →
      decodeDevEnt [Item.arrayLen 3, Item.int 0, Item.str "x", Item.other] m
        = .error ("decodeDevEnt array len doesn't match: " ++ toString (3 : Int))) ∧
    (∀ m, (3 : Int) ≠ 4 →
      decodeSubEnt [Item.arrayLen 3, Item.int 0, Item.str "x", Item.other] m
        = .error ("decodeSubEnt array len doesn't match: " ++ toString (3 : Int))) ∧
    (∀ m, (3 : Int) < 1 ∨ (3 : Int) > 2 →
      decodeResultEnt [Item.arrayLen 3, Item.int 0, Item.str "x", Item.other] m
        = .error ("decodeResultEnt array len doesn't match: " ++ toString (3 : Int)))) :=
  ⟨rfl, decode_arity_rejection _ _ 3 rfl⟩

/-- C3. A one-element array holding only the integer `c` decodes, whatever the target
record `m` held before and whatever follows, to the record with code `c` and the empty
message. -/
theorem decodeResultEnt_one_field (c : ResultCode) (m : ResultEnt) (rest : Decoder) :
    decodeResultEnt (Item.arrayLen 1 :: Item.int c :: rest) m
      = .ok ({ code := c, s := "" }, rest) := by
  simp [decodeResultEnt, DecodeSliceLen, DecodeInt, DecodeInt64]

/-- C4. Outcome mapping of the remote-call wrappers, for every answer of the typed call:
`doCreateSub` and `doPingChangeSub` return (`RES_ERR_DATABASE`, an error) exactly when the
call reports an error or the result set does not have exactly one element, and otherwise
the code of the single element and no error; `doCreateDev` returns (nil,
`RES_ERR_DATABASE`, an error) under the same condition and otherwise the single device,
`RES_OK` and no error. -/
theorem remote_call_outcome {σ : Type} (model : PushDbModel σ) (w : σ)
    (dev_id sub_id auth push_token push_tech : String) (now : Millitime) (change : Bool) :
    CodeOutcome (model.dbconn.CallTypedResultEnt w "push_CreateSub"
        [Arg.str dev_id, Arg.str sub_id, Arg.time now]).1
      (doCreateSub model w dev_id sub_id now).1 ∧
    CodeOutcome (model.dbconn.CallTypedResultEnt w
        (if change then "push_ChangeSub" else "push_PingSub")
        [Arg.str dev_id, Arg.str sub_id, Arg.time now]).1
      (doPingChangeSub model w dev_id sub_id change now).1 ∧
    DevOutcome (model.dbconn.CallTypedDevEnt w "push_CreateDev"
        [Arg.str dev_id, Arg.str auth, Arg.str push_token, Arg.str push_tech,
          Arg.time now]).1
      (doCreateDev model w dev_id auth push_token push_tech now).1 :=
  ⟨doCreateSub_outcome model w dev_id sub_id now,
    doPingChangeSub_outcome model w dev_id sub_id change now,
    doCreateDev_outcome model w dev_id auth push_token push_tech now⟩

/-- C5 as stated fails: when the lookup comes back with a nil result set, the error of
`getDevEnt` is the fixed text "Error calling device result set", in which neither the space
"devs", nor the index "primary", nor the request "select", nor the function, nor any
"push_" procedure is named. -/
theorem getDevEnt_error_names_nothing :
    (getDevEnt nilSelectModel () "dev-1").1 = (none, some "Error calling device result set") ∧
    ¬ Contains "Error calling device result set" "devs" ∧
    ¬ Contains "Error calling device result set" "primary" ∧
    ¬ Contains "Error calling device result set" "select" ∧
    ¬ Contains "Error calling device result set" "Select" ∧
    ¬ Contains "Error calling device result set" "getDevEnt" ∧
    ¬ Contains "Error calling device result set" "push_" := by
  refine ⟨rfl, ?_, ?_, ?_, ?_, ?_, ?_⟩ <;> decide

/-- C5, amended. Every error text synthesized by `doCreateDev`, `doCreateSub` and
`doPingChangeSub` contains the name of the procedure called (`push_ChangeSub` when `change`
is true, `push_PingSub` otherwise) and, when the typed call reported an error, the text of
that error.  An error text of `getDevEnt` is "Error calling device select: " followed by
the text of the error the lookup reported, or, when the lookup reported none, the fixed
text "Error calling device result set". -/
theorem error_message_contract {σ : Type} (model : PushDbModel σ) (w : σ)
    (dev_id sub_id auth push_token push_tech : String) (now : Millitime) (change : Bool) :
    NamesProcedure "push_CreateDev"
      (model.dbconn.CallTypedDevEnt w "push_CreateDev"
        [Arg.str dev_id, Arg.str auth, Arg.str push_token, Arg.str push_tech,
          Arg.time now]).1.err
      (doCreateDev model w dev_id auth push_token push_tech now).1.2.2 ∧
    NamesProcedure "push_CreateSub"
      (model.dbconn.CallTypedResultEnt w "push_CreateSub"
        [Arg.str dev_id, Arg.str sub_id, Arg.time now]).1.err
      (doCreateSub model w dev_id sub_id now).1.2 ∧
    NamesProcedure (if change then "push_ChangeSub" else "push_PingSub")
      (model.dbconn.CallTypedResultEnt w (if change then "push_ChangeSub" else "push_PingSub")
        [Arg.str dev_id, Arg.str sub_id, Arg.time now]).1.err
      (doPingChangeSub model w dev_id sub_id change now).1.2 ∧
    (∀ t, (getDevEnt model w dev_id).1.2 = some t →
      (∀ e, (model.dbconn.SelectTyped w "devs" "primary" 0 1 IterEq [Arg.str dev_id]).1.err
          = some e → t = "Error calling device select: " ++ e ∧ Contains t e) ∧
      ((model.dbconn.SelectTyped w "devs" "primary" 0 1 IterEq [Arg.str dev_id]).1.err = none →
        t = "Error calling device result set")) :=
  ⟨doCreateDev_names model w dev_id auth push_token push_tech now,
    doCreateSub_names model w dev_id sub_id now,
    doPingChangeSub_names model w dev_id sub_id change now,
    fun t ht => getDevEnt_error_text model w dev_id t ht⟩

/-- C6 as stated fails: against a server that is never ready the first connection attempt
is made after no sleep at all, not after 250ms x (2^1 - 1) = 250ms, and the second after
250ms, not after 750ms; and after the tenth failure, when 250ms x (2^10 - 1) have been
slept, no further attempt is made. -/
theorem first_attempt_without_sleep :
    sleptBefore (Connect dialNotReady sampleDb sampleServer).trace 1 = some 0 ∧
    sleptBefore (Connect dialNotReady sampleDb sampleServer).trace 1
      ≠ some (250 * Millisecond * (2 ^ 1 - 1)) ∧
    sleptBefore (Connect dialNotReady sampleDb sampleServer).trace 2
      = some (250 * Millisecond) ∧
    sleptBefore (Connect dialNotReady sampleDb sampleServer).trace 2
      ≠ some (250 * Millisecond * (2 ^ 2 - 1)) ∧
    attempts (Connect dialNotReady sampleDb sampleServer).trace = 10 ∧
    totalSleep (Connect dialNotReady sampleDb sampleServer).trace
      = 250 * Millisecond * (2 ^ 10 - 1) ∧
    sleptBefore (Connect dialNotReady sampleDb sampleServer).trace 11 = none := by
  refine ⟨rfl, ?_, rfl, ?_, rfl, rfl, rfl⟩ <;> decide

/-- C6, amended. For every `N` from 1 to 10, when the first `N` connection attempts all
fail with the "connection not ready" client error, the `N`-th attempt is made after a
cumulative sleep of 250ms x (2^(N-1) - 1), and the `N` sleeps that follow these attempts
add up to 250ms x (2^N - 1).  When an attempt (the `k+1`-th, the `k` before it having
failed as not ready) fails with any other error, `Connect` returns that error and what the
failed call returned as client, the trace ends with that attempt, it has `k+1` attempts and
the sleeps of the `k` earlier failures only. -/
theorem connect_retry_backoff {κ : Type}
    (dial : Nat → String → Opts → Option κ × Option ConnectError) (db : PushDbConfig)
    (server : PushServerConfig) :
    (∀ N, 1 ≤ N → N ≤ 10 → (∀ i, i < N → NotReadyAt dial i) →
      sleptBefore (Connect dial db server).trace N
        = some (250 * Millisecond * (2 ^ (N - 1) - 1)) ∧
      N ≤ (sleeps (Connect dial db server).trace).length ∧
      ((sleeps (Connect dial db server).trace).take N).sum
        = 250 * Millisecond * (2 ^ N - 1)) ∧
    (∀ k, k < 10 → (∀ i, i < k → NotReadyAt dial i) → ∀ c e, (∀ a o, dial k a o = (c, some e)) →
      isNotReady e = false →
      (Connect dial db server).client = c ∧ (Connect dial db server).err = some e ∧
      attempts (Connect dial db server).trace = k + 1 ∧
      totalSleep (Connect dial db server).trace = 250 * Millisecond * (2 ^ k - 1) ∧
      ∃ a o, (Connect dial db server).trace.getLast? = some (ConnectEvent.attempt a o)) := by
  refine ⟨fun N h1 h10 h => ?_, fun k hk h c e hd he => ?_⟩
  · exact ⟨connect_nth_attempt dial db server N h1 h10 (fun i hi => h i (by omega)),
      connect_first_sleeps dial db server N h10 h⟩
  · exact connect_fatal_error dial db server k hk h c e hd he

/-- C6, amended, at `N = 3` against a server that is never ready, and at a server that
refuses the first connection. -/
theorem connect_retry_backoff_witness :
    (sleptBefore (Connect dialNotReady sampleDb sampleServer).trace 3
        = some (250 * Millisecond * (2 ^ (3 - 1) - 1)) ∧
      3 ≤ (sleeps (Connect dialNotReady sampleDb sampleServer).trace).length ∧
      ((sleeps (Connect dialNotReady sampleDb sampleServer).trace).take 3).sum
        = 250 * Millisecond * (2 ^ 3 - 1)) ∧
    ((Connect dialRefused sampleDb sampleServer).client = none ∧
      (Connect dialRefused sampleDb sampleServer).err
        = some (ConnectError.other "connection refused") ∧
      attempts (Connect dialRefused sampleDb sampleServer).trace = 0 + 1 ∧
      totalSleep (Connect dialRefused sampleDb sampleServer).trace
        = 250 * Millisecond * (2 ^ 0 - 1) ∧
      ∃ a o, (Connect dialRefused sampleDb sampleServer).trace.getLast?
        = some (ConnectEvent.attempt a o)) :=
  ⟨(connect_retry_backoff dialNotReady sampleDb sampleServer).1 3 (by decide) (by decide)
      (fun i _ => dialNotReady_at i),
    (connect_retry_backoff dialRefused sampleDb sampleServer).2 0 (by decide)
      (fun i hi => absurd hi (Nat.not_lt_zero i)) none (ConnectError.other "connection refused")
      (fun _ _ => rfl) rfl⟩

/-- C7 as stated fails: a "subs" run with 2 workers and 10 requests, all remote calls
succeeding, creates 10 devices with 3 subscriptions each and leaves 10 entries in
`LIST_DEVS` and 10 entries, not 30, in `LIST_SUBS`. -/
theorem subs_list_not_three_per_device :
    ∃ g, runHarness sampleFlags okConn okRt runFuncSubs false (fun i => 100 * i) [1, 0, 1]
        { LIST_DEVS := none, LIST_SUBS := none } = .ok g ∧
      g.progress.count = 30 ∧
      len g.lists.LIST_DEVS = 10 ∧ len g.lists.LIST_SUBS = 10 ∧
      len g.lists.LIST_SUBS ≠ 3 * len g.lists.LIST_DEVS := by
  obtain ⟨g, hg, hc, hd, hs⟩ := runHarness_subs_ok sampleFlags okConn okRt (fun i => 100 * i)
    [1, 0, 1] { LIST_DEVS := none, LIST_SUBS := none } okConn_succeeds (by decide) (by decide)
    (by decide) (by decide)
  have hd' : len g.lists.LIST_DEVS = 10 := by rw [hd]; decide
  have hs' : len g.lists.LIST_SUBS = 10 := by rw [hs]; decide
  refine ⟨g, hg, by rw [hc]; decide, hd', hs', ?_⟩
  rw [hd', hs']
  decide

/-- C7, amended. Starting from empty shared lists, a "subs" run in which all remote calls
succeed, with accepted flags and a total from 10 to 2^31 - 1, completes under every
schedule of the workers' steps, and with `K = conc x (total / conc)` devices created it
leaves exactly `K` entries in `LIST_DEVS` and exactly `K` entries in `LIST_SUBS`. -/
theorem shared_lists_after_subs {σ : Type} (flags : Flags) (client : Connection σ)
    (rt : Runtime σ) (envs : Nat → σ) (sched : List Nat) (h : AllCallsSucceed client)
    (hf : flagsAccepted flags = true) (h10 : 10 ≤ flags.total) (h31 : flags.total < 2 ^ 31) :
    ∃ g, runHarness flags client rt runFuncSubs false envs sched
        { LIST_DEVS := none, LIST_SUBS := none } = .ok g ∧
      len g.lists.LIST_DEVS = flags.conc.toNat * (flags.total.tdiv flags.conc).toNat ∧
      len g.lists.LIST_SUBS = flags.conc.toNat * (flags.total.tdiv flags.conc).toNat := by
  simp only [flagsAccepted, Bool.not_eq_true', Bool.or_eq_false_iff, decide_eq_false_iff_not,
    not_lt] at hf
  obtain ⟨⟨hc, _⟩, hk⟩ := hf
  have hd : (NewProgress flags.total).total.tdiv 10 ≠ 0 := by
    apply tdiv_ten_ne_zero
    show 10 ≤ wrap32 flags.total
    rw [wrap32_of_range _ (by omega) h31]
    exact h10
  obtain ⟨g, hg, _, hdv, hsb⟩ := runHarness_subs_ok flags client rt envs sched
    { LIST_DEVS := none, LIST_SUBS := none } h hc (by omega) (by omega) hd
  exact ⟨g, hg, by simpa [len] using hdv, by simpa [len] using hsb⟩

/-- C7, amended, at 2 workers and 10 requests. -/
theorem shared_lists_after_subs_witness :
    ∃ g, runHarness sampleFlags okConn okRt runFuncSubs false (fun i => 100 * i) [0, 1, 1, 0]
        { LIST_DEVS := none, LIST_SUBS := none } = .ok g ∧
      len g.lists.LIST_DEVS = sampleFlags.conc.toNat * (sampleFlags.total.tdiv sampleFlags.conc).toNat ∧
      len g.lists.LIST_SUBS = sampleFlags.conc.toNat * (sampleFlags.total.tdiv sampleFlags.conc).toNat :=
  shared_lists_after_subs sampleFlags okConn okRt (fun i => 100 * i) [0, 1, 1, 0]
    okConn_succeeds rfl (by decide) (by decide)

/-- C8 as stated fails: the total 4294967316 is at least 10 and passes the flag test of
`main`, but `NewProgress` keeps it as the `int32` value 20, so the second call of
`increment` emits a sample at the count 2, which is no multiple of
4294967316 / 10 = 429496731. -/
theorem sample_at_non_multiple :
    flagsAccepted { conc := 1, total := 4294967316, keylen := 10, silent := false } = true ∧
    (10 : Int) ≤ 4294967316 ∧
    (NewProgress 4294967316).total = 20 ∧
    incrementAll (NewProgress 4294967316) [0, 1]
      = .ok ({ total := 20, count := 2, last_since := 1, last_count := 2 },
          [none, some { new_count := 2, requests := 2, elapsed := 1 }]) ∧
    ¬ (4294967316 : Int).tdiv 10 ∣ 2 := by
  refine ⟨rfl, by decide, rfl, rfl, by decide⟩

/-- C8, amended. Progress sampling, for every total from 10 to 2^31 - 1 (the totals the
`int32` field of a fresh `Progress` keeps unchanged) and any sequence of calls of
`increment` made one after the other: the calls all return, leaving the field `total` at
the total given and the count at the number of calls (as an `int32`); and the next call
returns too, makes the count 1 when it is the first, emits no sample and sets `last_count`
to 0 when it makes the count 1, and otherwise emits a sample for the new count and sets
`last_count` to it when the new count is a multiple of `total / 10`, and emits nothing and
leaves `last_count` alone when it is not. -/
theorem progress_sampling (total : Int) (h10 : 10 ≤ total) (h31 : total < 2 ^ 31)
    (nows : List Int) (now : Int) :
    ∃ p ss, incrementAll (NewProgress total) nows = .ok (p, ss) ∧
      p.total = total ∧ p.count = wrap32 nows.length ∧
      ∃ p' s, p.increment now = .ok (p', s) ∧ p'.total = total ∧
        p'.count = wrap32 (p.count + 1) ∧
        (nows = [] → p'.count = 1) ∧
        (p'.count = 1 → s = none ∧ p'.last_count = 0) ∧
        (p'.count ≠ 1 →
          (total.tdiv 10 ∣ p'.count →
            (∃ smp, s = some smp ∧ smp.new_count = p'.count) ∧ p'.last_count = p'.count) ∧
          (¬ total.tdiv 10 ∣ p'.count → s = none ∧ p'.last_count = p.last_count)) := by
  have hn : (NewProgress total).total = total := wrap32_of_range total (by omega) h31
  have hd : (NewProgress total).total.tdiv 10 ≠ 0 := by
    rw [hn]
    exact tdiv_ten_ne_zero total h10
  obtain ⟨p, ss, hp, ht, hc, _⟩ := incrementAll_total nows (NewProgress total) hd rfl
  rw [hn] at ht
  refine ⟨p, ss, hp, ht, by simpa [NewProgress] using hc, ?_⟩
  obtain ⟨p', s, hp', ht', hc', h1, h2⟩ :=
    increment_step p now (by rw [ht]; exact tdiv_ten_ne_zero total h10)
  refine ⟨p', s, hp', by rw [ht', ht], hc', ?_, h1, ?_⟩
  · intro hnil
    subst hnil
    rw [hc', hc]
    rfl
  · rw [← ht]
    exact h2

/-- C8, amended, at `total = 20` after three calls. -/
theorem progress_sampling_witness :
    (10 : Int) ≤ 20 ∧ (20 : Int) < 2 ^ 31 ∧
    ∃ p ss, incrementAll (NewProgress 20) [5, 6, 7] = .ok (p, ss) ∧
      p.total = 20 ∧ p.count = wrap32 ([5, 6, 7] : List Int).length ∧
      ∃ p' s, p.increment 8 = .ok (p', s) ∧ p'.total = 20 ∧
        p'.count = wrap32 (p.count + 1) ∧
        (([5, 6, 7] : List Int) = [] → p'.count = 1) ∧
        (p'.count = 1 → s = none ∧ p'.last_count = 0) ∧
        (p'.count ≠ 1 →
          ((20 : Int).tdiv 10 ∣ p'.count →
            (∃ smp, s = some smp ∧ smp.new_count = p'.count) ∧ p'.last_count = p'.count) ∧
          (¬ (20 : Int).tdiv 10 ∣ p'.count → s = none ∧ p'.last_count = p.last_count)) :=
  ⟨by decide, by decide, progress_sampling 20 (by decide) (by decide) [5, 6, 7] 8⟩

/-- C9 as stated fails: a "subs" run with 2 workers and 10 requests, all remote calls
succeeding, ends with the progress counter at 30, not at 2 x (10 / 2) = 10. -/
theorem subs_counts_three_per_request :
    ∃ g, runHarness sampleFlags okConn okRt runFuncSubs false (fun i => 100 * i) [0, 0, 1]
        { LIST_DEVS := none, LIST_SUBS := none } = .ok g ∧
      g.progress.count = 30 ∧
      g.progress.count ≠ sampleFlags.conc * (sampleFlags.total / sampleFlags.conc) := by
  obtain ⟨g, hg, hc, _, _⟩ := runHarness_subs_ok sampleFlags okConn okRt (fun i => 100 * i)
    [0, 0, 1] { LIST_DEVS := none, LIST_SUBS := none } okConn_succeeds (by decide) (by decide)
    (by decide) (by decide)
  have hc' : g.progress.count = 30 := by rw [hc]; decide
  refine ⟨g, hg, hc', ?_⟩
  rw [hc']
  decide

/-- C9, amended. With accepted flags, a total from 10 to 2^31 - 1 and all remote calls
succeeding, every run of the harness completes under every schedule of the workers' steps,
and the progress counter ends at `conc x (total / conc)` for the "ping" and the "change"
workload (the shared lists holding at least `total / conc` entries each), and at
`3 x conc x (total / conc)` for the "subs" workload as far as that is below 2^31 (the
`int32` counter holds this number modulo 2^32). -/
theorem executed_request_count {σ : Type} (flags : Flags) (client : Connection σ)
    (rt : Runtime σ) (envs : Nat → σ) (sched : List Nat) (h : AllCallsSucceed client)
    (hf : flagsAccepted flags = true) (h10 : 10 ≤ flags.total) (h31 : flags.total < 2 ^ 31) :
    (∀ (change : Bool) (ld ls : List String),
      (flags.total.tdiv flags.conc).toNat ≤ ld.length →
      (flags.total.tdiv flags.conc).toNat ≤ ls.length →
      ∃ g, runHarness flags client rt (if change then runFuncChange else runFuncPing) true
          envs sched { LIST_DEVS := some ld, LIST_SUBS := some ls } = .ok g ∧
        g.progress.count = flags.conc * flags.total.tdiv flags.conc) ∧
    (∀ lists, ∃ g, runHarness flags client rt runFuncSubs false envs sched lists = .ok g ∧
      g.progress.count = wrap32 (3 * (flags.conc * flags.total.tdiv flags.conc)) ∧
      (3 * flags.total < 2 ^ 31 →
        g.progress.count = 3 * (flags.conc * flags.total.tdiv flags.conc))) := by
  simp only [flagsAccepted, Bool.not_eq_true', Bool.or_eq_false_iff, decide_eq_false_iff_not,
    not_lt] at hf
  obtain ⟨⟨hc, _⟩, hk⟩ := hf
  have hd : (NewProgress flags.total).total.tdiv 10 ≠ 0 := by
    apply tdiv_ten_ne_zero
    show 10 ≤ wrap32 flags.total
    rw [wrap32_of_range _ (by omega) h31]
    exact h10
  have hq0 : 0 ≤ flags.total.tdiv flags.conc := numreq_nonneg flags hc (by omega)
  have hqle : flags.conc * flags.total.tdiv flags.conc ≤ flags.total := by
    rw [Int.tdiv_eq_ediv (by omega) (by omega)]
    exact Int.mul_ediv_self_le (by omega)
  have hq1 : 0 ≤ flags.conc * flags.total.tdiv flags.conc := Int.mul_nonneg (by omega) hq0
  have hcast : ((flags.conc.toNat * (flags.total.tdiv flags.conc).toNat : Nat) : Int)
      = flags.conc * flags.total.tdiv flags.conc := by
    push_cast
    rw [Int.toNat_of_nonneg (by omega), Int.toNat_of_nonneg hq0]
  refine ⟨fun change ld ls hld hls => ?_, fun lists => ?_⟩
  · obtain ⟨g, hg, hcount, _, _⟩ := runHarness_ping_ok change flags client rt envs sched ld ls
      h hc hd hld hls
    refine ⟨g, hg, ?_⟩
    rw [hcount, hcast]
    exact wrap32_of_range _ (by omega) (by omega)
  · obtain ⟨g, hg, hcount, _, _⟩ := runHarness_subs_ok flags client rt envs sched lists h hc
      (by omega) (by omega) hd
    have hcast3 : ((flags.conc.toNat * (3 * (flags.total.tdiv flags.conc).toNat) : Nat) : Int)
        = 3 * (flags.conc * flags.total.tdiv flags.conc) := by
      rw [← hcast]
      push_cast
      ring
    rw [hcast3] at hcount
    refine ⟨g, hg, hcount, fun h3 => ?_⟩
    rw [hcount]
    exact wrap32_of_range _ (by omega) (by omega)

/-- C9, amended, at 2 workers and 10 requests. -/
theorem executed_request_count_witness :
    (∀ (change : Bool) (ld ls : List String),
      (sampleFlags.total.tdiv sampleFlags.conc).toNat ≤ ld.length →
      (sampleFlags.total.tdiv sampleFlags.conc).toNat ≤ ls.length →
      ∃ g, runHarness sampleFlags okConn okRt (if change then runFuncChange else runFuncPing)
          true (fun i => 100 * i) [1, 1, 0] { LIST_DEVS := some ld, LIST_SUBS := some ls }
          = .ok g ∧
        g.progress.count = sampleFlags.conc * sampleFlags.total.tdiv sampleFlags.conc) ∧
    (∀ lists, ∃ g, runHarness sampleFlags okConn okRt runFuncSubs false (fun i => 100 * i)
        [1, 1, 0] lists = .ok g ∧
      g.progress.count
        = wrap32 (3 * (sampleFlags.conc * sampleFlags.total.tdiv sampleFlags.conc)) ∧
      (3 * sampleFlags.total < 2 ^ 31 →
        g.progress.count = 3 * (sampleFlags.conc * sampleFlags.total.tdiv sampleFlags.conc))) :=
  executed_request_count sampleFlags okConn okRt (fun i => 100 * i) [1, 1, 0] okConn_succeeds
    rfl (by decide) (by decide)

/-- C10 fails on the code: the flags `-c 1 -n 5 -l 10` pass the test of `main`, the divisor
`total / 10` of `increment` is then 0, and the second call of `increment` of the run, the
first being answered without a division, is a division by zero; so is the "subs" run with
these flags as a whole. -/
theorem increment_divides_by_zero :
    flagsAccepted { conc := 1, total := 5, keylen := 10, silent := false } = true ∧
    (NewProgress 5).total.tdiv 10 = 0 ∧
    (∃ p, (NewProgress 5).increment 0 = .ok (p, none)) ∧
    incrementAll (NewProgress 5) [0, 1] = .error "runtime error: integer divide by zero" ∧
    runHarness { conc := 1, total := 5, keylen := 10, silent := false } okConn okRt
        runFuncSubs false (fun i => i) [] { LIST_DEVS := none, LIST_SUBS := none }
      = .error (Stop.panic "runtime error: integer divide by zero") := by
  refine ⟨rfl, rfl, ⟨_, rfl⟩, rfl, ?_⟩
  with_unfolding_all rfl

end PushDb
